import Mathlib

/-!
Shallow embedding of the Mach-O object-file backend (`src/mach.rs`) of the
faerie object-file writer, together with proofs about its layout, symbol
table, and relocation pipeline.

Conventions of the embedding:
* Rust machine integers are modelled as `Nat` (with explicit `% 2 ^ w`
  truncation where the Rust code casts or can overflow); signed values that
  matter (`r_address : i32`, raw-relocation addends) are modelled as `Int`.
* Code that can panic (`unreachable!`, `assert!`, failed `unwrap`,
  `IndexMap` indexing with a missing key, `align_to_align_exp` on a
  non-power-of-two) is modelled as returning `none`.
* `IndexMap` is modelled as an insertion-ordered association list
  (`List (key × value)`); `HashMap` likewise, observed only through lookup.
* The `string_interner` crate's `get_or_intern` is modelled by a list of
  distinct strings in insertion order; the interned index of a string is its
  position in that list.
-/

namespace Faerie

/-! ### Generic container helpers (models of IndexMap / HashMap / interner) -/

/-- Association-list lookup by key: the value of the first pair whose key
matches, mirroring map lookup in `IndexMap` / `HashMap`. -/
def alookup {α : Type} : List (String × α) → String → Option α
  | [], _ => none
  | (k, v) :: rest, key => if k = key then some v else alookup rest key

/-- Position of the first pair with the given key, mirroring
`IndexMap::get_full(key).0`. -/
def keyIdx {α : Type} : List (String × α) → String → Option Nat
  | [], _ => none
  | (k, _) :: rest, key => if k = key then some 0 else (keyIdx rest key).map (· + 1)

/-- Modify the entry at position `i` (mirrors `IndexMap::get_index_mut` when
the index is in bounds; out-of-bounds callers model the `unwrap` panic
separately). -/
def modifyIdx {α : Type} : List α → Nat → (α → α) → List α
  | [], _, _ => []
  | x :: xs, 0, f => f x :: xs
  | x :: xs, n + 1, f => x :: modifyIdx xs n f

/-- Lookup in an `IndexMap` keyed by interner indices (`Nat` keys). -/
def nlookup {α : Type} : List (Nat × α) → Nat → Option α
  | [], _ => none
  | (k, v) :: rest, key => if k = key then some v else nlookup rest key

/-- `IndexMap::insert` for `Nat` keys: replaces the value in place (keeping
the entry's position) when the key is present, appends a new entry
otherwise. -/
def indexMapInsert {α : Type} : List (Nat × α) → Nat → α → List (Nat × α)
  | [], k, v => [(k, v)]
  | p :: rest, k, v => if p.1 = k then (k, v) :: rest else p :: indexMapInsert rest k v

/-- Interner lookup (`StringInterner::get`): position of the string in
insertion order, `none` when it was never interned. -/
def strGet : List String → String → Option Nat
  | [], _ => none
  | s :: rest, key => if s = key then some 0 else (strGet rest key).map (· + 1)

/-! ### Mach-O constants (from `goblin`) used by `src/mach.rs` -/

/-- Section flag `S_REGULAR`. -/
def S_REGULAR : Nat := 0
/-- Section flag `S_ZEROFILL`. -/
def S_ZEROFILL : Nat := 1
/-- Section flag `S_CSTRING_LITERALS`. -/
def S_CSTRING_LITERALS : Nat := 2
/-- Section attribute `S_ATTR_PURE_INSTRUCTIONS`. -/
def S_ATTR_PURE_INSTRUCTIONS : Nat := 0x80000000
/-- Section attribute `S_ATTR_SOME_INSTRUCTIONS`. -/
def S_ATTR_SOME_INSTRUCTIONS : Nat := 0x00000400
/-- Section attribute `S_ATTR_DEBUG`. -/
def S_ATTR_DEBUG : Nat := 0x02000000

/-- Symbol type bit `N_UNDF`. -/
def N_UNDF : Nat := 0
/-- Symbol type bit `N_EXT`. -/
def N_EXT : Nat := 1
/-- Symbol type bit `N_SECT`. -/
def N_SECT : Nat := 0xe
/-- Sentinel section ordinal `NO_SECT`. -/
def NO_SECT : Nat := 0

/-- Relocation type `X86_64_RELOC_UNSIGNED` (also the value of `R_ABS`). -/
def X86_64_RELOC_UNSIGNED : Nat := 0
/-- Relocation type `X86_64_RELOC_SIGNED`. -/
def X86_64_RELOC_SIGNED : Nat := 1
/-- Relocation type `X86_64_RELOC_BRANCH`. -/
def X86_64_RELOC_BRANCH : Nat := 2
/-- Relocation type `X86_64_RELOC_GOT_LOAD`. -/
def X86_64_RELOC_GOT_LOAD : Nat := 3
/-- Absolute relocation code `R_ABS`. -/
def R_ABS : Nat := 0

/-- Reinterpretation of a `u64` value as an `i32` (`v as i32` in Rust):
truncate to 32 bits, then two's-complement sign. -/
def toI32 (n : Nat) : Int :=
  if n % 2 ^ 32 < 2 ^ 31 then ((n % 2 ^ 32 : Nat) : Int)
  else ((n % 2 ^ 32 : Nat) : Int) - 2 ^ 32

/-! ### Artifact-side data model

The artifact module (`src/artifact.rs`) is not part of the sources under
verification; the small surface `src/mach.rs` consumes is modelled here. -/

/-- Modelled from the spec: the artifact's `DataType` for `Data`
declarations (`Bytes` or `String`); `src/artifact.rs` is absent from the
sources. -/
inductive DataType
  | Bytes
  | String
deriving DecidableEq, Repr

/-- Modelled from the spec: the artifact's custom-section kind
(`Data`, `Debug`, `Text`); `src/artifact.rs` is absent from the sources. -/
inductive SectionKind
  | Data
  | Debug
  | Text
deriving DecidableEq, Repr

/-- Modelled from the spec: the artifact's import kind; `src/artifact.rs`
is absent from the sources. -/
inductive ImportKind
  | Function
  | Data
deriving DecidableEq, Repr

/-- Modelled from the spec: a definition's payload, either a byte blob or a
zero-init length (no bytes emitted); `src/artifact.rs` is absent from the
sources. -/
inductive Data
  | Blob (bytes : List Nat)
  | ZeroInit (size : Nat)
deriving DecidableEq, Repr

/-- Modelled from the spec: `Data::file_size` — the number of file bytes a
payload occupies; zero-init definitions occupy no file bytes. -/
def Data.file_size : Data → Nat
  | .Blob bytes => bytes.length
  | .ZeroInit _ => 0

/-- Modelled from the spec: the defined-declaration kinds (`Function`,
`Data` with a datatype, custom `Section` with a kind), each carrying a
global flag and/or requested alignment; `src/artifact.rs` is absent from
the sources. -/
inductive DefinedDecl
  | Function (global : Bool) (align : Option Nat)
  | Data (global : Bool) (datatype : DataType) (align : Option Nat)
  | Section (kind : SectionKind) (datatype : DataType) (align : Option Nat)
deriving DecidableEq, Repr

/-- Modelled from the spec: `DefinedDecl::get_align`. -/
def DefinedDecl.get_align : DefinedDecl → Option Nat
  | .Function _ a => a
  | .Data _ _ a => a
  | .Section _ _ a => a

/-- Modelled from the spec: `DefinedDecl::is_global`.  Custom sections do
not carry a global flag. -/
def DefinedDecl.is_global : DefinedDecl → Bool
  | .Function g _ => g
  | .Data g _ _ => g
  | .Section _ _ _ => false

/-- Modelled from the spec: a declaration is either a defined symbol or an
import. -/
inductive Decl
  | Defined (d : DefinedDecl)
  | Import (k : ImportKind)
deriving DecidableEq, Repr

/-- Modelled from the spec: `Decl::is_section`. -/
def Decl.is_section : Decl → Bool
  | .Defined (.Section _ _ _) => true
  | _ => false

/-- Modelled from the spec: one artifact definition — a name, its
declaration, its payload, and (for custom sections) the sub-symbol map of
names to in-section offsets. -/
structure Definition where
  name : String
  decl : DefinedDecl
  data : Data
  symbols : List (String × Nat)
deriving DecidableEq, Repr

/-- Modelled from the spec: one endpoint of a link (`name` plus its
declaration). -/
structure LinkSide where
  name : String
  decl : Decl
deriving DecidableEq, Repr

/-- Modelled from the spec: the relocation request attached to a link. -/
inductive Reloc
  | Auto
  | Raw (reloc : Nat) (addend : Int)
  | Debug (size : Nat)
deriving DecidableEq, Repr

/-- Modelled from the spec: one artifact link: `from` endpoint, `to`
endpoint, byte offset `at` inside `from`, and the relocation request. -/
structure LinkEntry where
  from' : LinkSide
  to' : LinkSide
  at' : Nat
  reloc : Reloc
deriving DecidableEq, Repr

/-! ### `align_to_align_exp` (src/mach.rs lines 50–58) -/

/-- The search loop of `align_to_align_exp`
(`while 1 << align_exp != align { align_exp += 1 }`), with enough fuel to
reach any possible exponent of `align`; running out of fuel means `align`
was not a power of two, which the source asserts against (panic). -/
def alignExpLoop : Nat → Nat → Nat → Option Nat
  | 0, _, _ => none
  | fuel + 1, align_exp, align =>
    if 2 ^ align_exp = align then some align_exp
    else alignExpLoop fuel (align_exp + 1) align

/-- `align_to_align_exp`: asserts the alignment is a nonzero power of two
(`none` models the panic) and returns its base-2 logarithm. -/
def align_to_align_exp (align : Nat) : Option Nat :=
  if align = 0 then none
  else alignExpLoop (align + 1) 0 align

/-! ### SymbolBuilder and Nlist (src/mach.rs lines 69–155) -/

/-- An `Nlist` symbol-table entry as emitted by `SymbolBuilder::create`. -/
structure Nlist where
  n_strx : Nat
  n_type : Nat
  n_sect : Nat
  n_desc : Nat
  n_value : Nat
deriving DecidableEq, Repr

/-- `SymbolBuilder`: the per-symbol record kept in the symbol table.
`name` is the string-table byte offset of the symbol's name. -/
structure SymbolBuilder where
  name : Nat
  sect : Option Nat
  global : Bool
  isImport : Bool
  offset : Nat
  segment_relative_offset : Nat
deriving DecidableEq, Repr

/-- `SymbolBuilder::new`. -/
def SymbolBuilder.new (name : Nat) : SymbolBuilder :=
  { name, sect := none, global := false, isImport := false, offset := 0,
    segment_relative_offset := 0 }

/-- `SymbolBuilder::section`. -/
def SymbolBuilder.setSection (s : SymbolBuilder) (section_index : Nat) : SymbolBuilder :=
  { s with sect := some section_index }

/-- `SymbolBuilder::global`. -/
def SymbolBuilder.setGlobal (s : SymbolBuilder) (global : Bool) : SymbolBuilder :=
  { s with global }

/-- `SymbolBuilder::offset`. -/
def SymbolBuilder.setOffset (s : SymbolBuilder) (offset : Nat) : SymbolBuilder :=
  { s with offset }

/-- `SymbolBuilder::relative_offset`. -/
def SymbolBuilder.setRelative (s : SymbolBuilder) (relative_offset : Nat) : SymbolBuilder :=
  { s with segment_relative_offset := relative_offset }

/-- `SymbolBuilder::import`. -/
def SymbolBuilder.setImport (s : SymbolBuilder) : SymbolBuilder :=
  { s with isImport := true }

/-- `SymbolBuilder::create` (src/mach.rs lines 121–154): finalize the
builder into an `Nlist`.  Note the `else` arm ORs `N_SECT` into `n_type`
for every non-import symbol. -/
def SymbolBuilder.create (s : SymbolBuilder) : Nlist :=
  let n_strx := s.name
  let n_sect := 0
  let n_type := N_UNDF
  let n_value := s.offset
  let n_desc := 0
  let n_type := if s.global then n_type ||| N_EXT else n_type &&& (255 - N_EXT)
  let st : Nat × Nat :=
    match s.sect with
    | some idx => (idx + 1, n_type ||| N_SECT)
    | none => (n_sect, n_type)
  let n_sect := st.1
  let n_type := st.2
  if s.isImport then
    { n_strx, n_type := N_EXT, n_sect := NO_SECT, n_desc, n_value := 0 }
  else
    { n_strx, n_type := n_type ||| N_SECT, n_sect, n_desc, n_value }

/-! ### RelocationBuilder (src/mach.rs lines 160–217) -/

/-- A finalized Mach-O relocation record: `r_address` is an `i32`,
`r_info` the packed 32-bit field word. -/
structure RelocationInfo where
  r_address : Int
  r_info : Nat
deriving DecidableEq, Repr

/-- `RelocationBuilder`: symbol ordinal, fixup offset, absolute flag,
value size in bytes, relocation type. -/
structure RelocationBuilder where
  symbol : Nat
  relocation_offset : Nat
  absolute : Bool
  size : Nat
  r_type : Nat
deriving DecidableEq, Repr

/-- `RelocationBuilder::new`. -/
def RelocationBuilder.new (symbol relocation_offset r_type : Nat) : RelocationBuilder :=
  { symbol, relocation_offset, absolute := false, size := 0, r_type }

/-- `RelocationBuilder::absolute`. -/
def RelocationBuilder.abs (b : RelocationBuilder) : RelocationBuilder :=
  { b with absolute := true }

/-- `RelocationBuilder::size`. -/
def RelocationBuilder.withSize (b : RelocationBuilder) (size : Nat) : RelocationBuilder :=
  { b with size := size }

/-- `RelocationBuilder::create` (src/mach.rs lines 192–216): pack the
`r_info` word; an unsupported relocation size panics (`none`).  The
`% 2 ^ 32` truncations model the `as u32` casts and 32-bit shifts. -/
def RelocationBuilder.create (b : RelocationBuilder) : Option RelocationInfo :=
  let r_symbolnum : Nat := b.symbol % 2 ^ 32
  let r_pcrel : Nat := (if b.absolute then 0 else 1) <<< 24
  let r_length? : Option Nat :=
    if b.size = 0 then some (if b.absolute then 3 else 2)
    else if b.size = 4 then some 2
    else if b.size = 8 then some 3
    else none
  r_length?.map fun len =>
    let r_length : Nat := len <<< 25
    let r_extern : Nat := 1 <<< 27
    let r_type : Nat := (b.r_type <<< 28) % 2 ^ 32
    let r_info := r_symbolnum ||| r_pcrel ||| r_length ||| r_extern ||| r_type
    { r_address := toI32 b.relocation_offset, r_info }

/-! ### SectionBuilder (src/mach.rs lines 220–293) -/

/-- `SectionBuilder`: the per-section layout record.  `align` stores the
alignment exponent, as in the source. -/
structure SectionBuilder where
  addr : Nat
  align : Nat
  offset : Nat
  size : Nat
  flags : Nat
  sectname : String
  segname : String
  relocations : List RelocationInfo
deriving DecidableEq, Repr

/-- `SectionBuilder::new` with its field defaults. -/
def SectionBuilder.new (sectname segname : String) (size : Nat) : SectionBuilder :=
  { addr := 0, align := 4, offset := 0, flags := S_REGULAR, size, sectname, segname,
    relocations := [] }

/-- `SectionBuilder::addr`. -/
def SectionBuilder.withAddr (s : SectionBuilder) (addr : Nat) : SectionBuilder :=
  { s with addr }

/-- `SectionBuilder::offset`. -/
def SectionBuilder.withOffset (s : SectionBuilder) (offset : Nat) : SectionBuilder :=
  { s with offset }

/-- `SectionBuilder::align`. -/
def SectionBuilder.withAlign (s : SectionBuilder) (align : Nat) : SectionBuilder :=
  { s with align }

/-- `SectionBuilder::flags`. -/
def SectionBuilder.withFlags (s : SectionBuilder) (flags : Nat) : SectionBuilder :=
  { s with flags }

/-! ### SymbolTable (src/mach.rs lines 296–412) -/

/-- The kind of symbol being inserted (`SymbolType` in the source). -/
inductive SymbolType
  | Undefined
  | Defined (sec : Nat) (absolute_offset : Nat) (segment_relative_offset : Nat)
      (global : Bool)
deriving DecidableEq, Repr

/-- The Mach-O symbol table: symbol records and ordinals keyed by interned
string index, the interner itself, and the accumulated string-table byte
size. -/
structure SymbolTable where
  symbols : List (Nat × SymbolBuilder)
  strtable : List String
  indexes : List (Nat × Nat)
  strtable_size : Nat
deriving DecidableEq, Repr

/-- `SymbolTable::new`: the interner starts with the empty string and the
string-table size accounts for its single NUL byte. -/
def SymbolTable.new : SymbolTable :=
  { symbols := [], strtable := [""], indexes := [], strtable_size := 1 }

/-- `SymbolTable::len`. -/
def SymbolTable.len (t : SymbolTable) : Nat := t.symbols.length

/-- `SymbolTable::sizeof_strtable`. -/
def SymbolTable.sizeof_strtable (t : SymbolTable) : Nat := t.strtable_size

/-- `SymbolTable::offset`: the segment-relative offset recorded for a
symbol name, when known. -/
def SymbolTable.offset (t : SymbolTable) (symbol_name : String) : Option Nat :=
  (strGet t.strtable symbol_name).bind fun idx =>
    (nlookup t.symbols idx).map fun sym => sym.segment_relative_offset

/-- `SymbolTable::index`: the symbol ordinal recorded for a name, when
known. -/
def SymbolTable.index (t : SymbolTable) (symbol_name : String) : Option Nat :=
  (strGet t.strtable symbol_name).bind fun idx => nlookup t.indexes idx

/-- `SymbolTable::insert` (src/mach.rs lines 373–411): idempotent on the
name.  A new name is interned, a symbol record is created at the current
string-table size, the next symbol ordinal is assigned, and the
string-table size grows by `len(name) + 2` (underscore prefix plus NUL,
both added at write time). -/
def SymbolTable.insert (t : SymbolTable) (symbol_name : String) (kind : SymbolType) :
    SymbolTable :=
  let name_len := symbol_name.utf8ByteSize + 1 + 1
  match strGet t.strtable symbol_name with
  | some _ => t
  | none =>
    let name_index := t.strtable.length
    let builder :=
      match kind with
      | .Undefined => ((SymbolBuilder.new t.strtable_size).setGlobal true).setImport
      | .Defined sec abs rel g =>
        ((((SymbolBuilder.new t.strtable_size).setGlobal g).setOffset abs).setRelative
          rel).setSection sec
    { symbols := indexMapInsert t.symbols name_index builder
      strtable := t.strtable ++ [symbol_name]
      indexes := indexMapInsert t.indexes name_index t.symbols.length
      strtable_size := t.strtable_size + name_len }

/-! ### SegmentBuilder (src/mach.rs lines 414–665) -/

/-- The mutable state threaded through the `build_section` loop
(src/mach.rs lines 454–457 plus the `&mut` parameters it updates). -/
structure LoopState where
  symtab : SymbolTable
  symbol_offset : Nat
  section_relative_offset : Nat
  local_size : Nat
  alignment_exponent : Nat
  align_pad_map : List (String × Nat)
deriving DecidableEq, Repr

/-- The one-step lookahead of the `build_section` loop:
`def_iter.peek().map(|def| align_to_align_exp(def.decl.get_align().unwrap_or(1))).unwrap_or(0)`.
With no successor the peek contributes `0`; otherwise the peeked
definition's alignment is converted (panicking — `none` — when it is not a
power of two). -/
def peekExp : List Definition → Option Nat
  | [] => some 0
  | e :: _ => align_to_align_exp (e.decl.get_align.getD 1)

/-- The padding appended after a definition (src/mach.rs lines 485–491):
`section_relative_offset` is the running offset after the definition's
payload, and `max min_alignment_exponent pe` the alignment exponent the
next definition's start must satisfy. -/
def padFor (min_alignment_exponent pe section_relative_offset : Nat) : Nat :=
  let next_def_alignment_exponent := max min_alignment_exponent pe
  let align_pad := 2 ^ next_def_alignment_exponent -
    section_relative_offset % 2 ^ next_def_alignment_exponent
  if align_pad = 2 ^ next_def_alignment_exponent then 0 else align_pad

/-- One iteration of the `build_section` loop body (src/mach.rs lines
463–496) for definition `d` when the peek contributed `pe`: insert the
defined symbol at the current offsets, advance the three counters by the
definition's file size, fold the next-definition alignment into the
section's alignment exponent, compute the padding needed to align the next
definition, record it in `align_pad_map`, and advance the three counters by
the padding. -/
def loopStep (sec min_alignment_exponent : Nat) (d : Definition) (pe : Nat)
    (st : LoopState) : LoopState :=
  let align_pad :=
    padFor min_alignment_exponent pe (st.section_relative_offset + d.data.file_size)
  { symtab := st.symtab.insert d.name
      (.Defined sec st.symbol_offset st.section_relative_offset d.decl.is_global)
    symbol_offset := st.symbol_offset + d.data.file_size + align_pad
    section_relative_offset := st.section_relative_offset + d.data.file_size + align_pad
    local_size := st.local_size + d.data.file_size + align_pad
    alignment_exponent := max st.alignment_exponent (max min_alignment_exponent pe)
    align_pad_map := (d.name, align_pad) :: st.align_pad_map }

/-- Modelled from the spec: whether a defined declaration is a custom
section (the `if let DefinedDecl::Section { .. }` test). -/
def DefinedDecl.isSectionDecl : DefinedDecl → Bool
  | .Section _ _ _ => true
  | _ => false

/-- The body of `SegmentBuilder::build_section`'s `while let` loop
(src/mach.rs lines 458–497), iterating over the definitions with a one-step
lookahead.  A custom-section definition in a default bucket is
`unreachable!` (`none`); a non-power-of-two alignment on the peeked
definition panics inside `align_to_align_exp` (`none`). -/
def buildSectionLoop (sec : Nat) (min_alignment_exponent : Nat) :
    List Definition → LoopState → Option LoopState
  | [], st => some st
  | d :: rest, st =>
    if d.decl.isSectionDecl then none
    else
      (peekExp rest).bind fun pe =>
        buildSectionLoop sec min_alignment_exponent rest
          (loopStep sec min_alignment_exponent d pe st)

/-- The segment-wide state threaded through `SegmentBuilder::new`:
the symbol table, the running file `offset`, the running `addr` (the
variable named `size` at the `new` call site), the shared absolute
`symbol_offset`, the insertion-ordered section map, and the shared
per-definition padding map. -/
structure BuildCtx where
  symtab : SymbolTable
  offset : Nat
  addr : Nat
  symbol_offset : Nat
  sections : List (String × SectionBuilder)
  align_pad_map : List (String × Nat)
deriving DecidableEq, Repr

/-- Insert into the `String`-keyed section `IndexMap`: replace in place
(keeping the entry's position) when the key is present, append otherwise. -/
def sectionsInsert : List (String × SectionBuilder) → String → SectionBuilder →
    List (String × SectionBuilder)
  | [], k, v => [(k, v)]
  | p :: rest, k, v => if p.1 = k then (k, v) :: rest else p :: sectionsInsert rest k v

/-- `SegmentBuilder::build_section` (src/mach.rs lines 440–508): run the
definition loop, then create the section builder and advance `offset` and
`addr` by the section's local size. -/
def build_section (ctx : BuildCtx) (sectname segname : String) (sec : Nat)
    (definitions : List Definition) (min_alignment_exponent : Nat) (flags : Option Nat) :
    Option BuildCtx :=
  (buildSectionLoop sec min_alignment_exponent definitions
      { symtab := ctx.symtab
        symbol_offset := ctx.symbol_offset
        section_relative_offset := 0
        local_size := 0
        alignment_exponent := min_alignment_exponent
        align_pad_map := ctx.align_pad_map }).map fun st =>
    let sb := (((SectionBuilder.new sectname segname st.local_size).withOffset
        ctx.offset).withAddr ctx.addr).withAlign st.alignment_exponent
    let sb := match flags with
      | some f => sb.withFlags f
      | none => sb
    { symtab := st.symtab
      offset := ctx.offset + st.local_size
      addr := ctx.addr + st.local_size
      symbol_offset := st.symbol_offset
      sections := sectionsInsert ctx.sections sectname sb
      align_pad_map := st.align_pad_map }

/-- `SegmentBuilder::build_custom_section` (src/mach.rs lines 509–563).
Sub-symbols are inserted as global defined symbols; the section is keyed in
the section map by the definition's artifact name. -/
def build_custom_section (ctx : BuildCtx) (section_idx : Nat) (d : Definition) :
    Option BuildCtx :=
  match d.decl with
  | .Section kind _ align =>
    let segment_name := match kind with
      | .Data => "__DATA"
      | .Debug => "__DWARF"
      | .Text => "__TEXT"
    let sectname := if d.name.startsWith ".debug"
      then "__debug" ++ (d.name.drop 6)
      else d.name
    let flags := if kind = SectionKind.Debug then S_ATTR_DEBUG else 0
    let symtab := d.symbols.foldl
      (fun st p =>
        st.insert p.1 (.Defined section_idx (ctx.symbol_offset + p.2) p.2 true))
      ctx.symtab
    let local_size := d.data.file_size
    (align_to_align_exp (align.getD 1)).map fun ae =>
      let sb := ((((SectionBuilder.new sectname segment_name local_size).withOffset
          ctx.offset).withAddr ctx.addr).withAlign ae).withFlags flags
      { symtab
        offset := ctx.offset + local_size
        addr := ctx.addr + local_size
        symbol_offset := ctx.symbol_offset + local_size
        sections := sectionsInsert ctx.sections d.name sb
        align_pad_map := ctx.align_pad_map }
  | _ => none

/-- Fold `build_custom_section` over the custom-section definitions with
their running section indices (the `for (idx, def)` loop of
`SegmentBuilder::new`). -/
def buildCustomSections : BuildCtx → Nat → List Definition → Option BuildCtx
  | ctx, _, [] => some ctx
  | ctx, idx, d :: rest =>
    (build_custom_section ctx idx d).bind fun ctx' =>
      buildCustomSections ctx' (idx + 1) rest

/-- A built Mach-O program segment: section map, the running file offset
after all payloads, the total payload size, and the padding map. -/
structure SegmentBuilder where
  sections : List (String × SectionBuilder)
  offset : Nat
  size : Nat
  align_pad_map : List (String × Nat)
deriving DecidableEq, Repr

/-- `SegmentBuilder::new` (src/mach.rs lines 566–664): build the four
default sections in their fixed order with their per-bucket minimum
alignment exponents and flags, then the custom sections, then insert all
imports as undefined symbols.  `header_size` is `Header::size_with(ctx)`
(32 for a 64-bit container). -/
def SegmentBuilder.mk' (header_size : Nat) (code blob_data zeroed_data cstrings
    custom_sections : List Definition) (imports : List (String × ImportKind))
    (symtab : SymbolTable) : Option (SymbolTable × SegmentBuilder) :=
  let c0 : BuildCtx :=
    { symtab, offset := header_size, addr := 0, symbol_offset := 0, sections := [],
      align_pad_map := [] }
  (build_section c0 "__text" "__TEXT" 0 code 4
      (some (S_ATTR_PURE_INSTRUCTIONS ||| S_ATTR_SOME_INSTRUCTIONS))).bind fun c1 =>
  (build_section c1 "__data" "__DATA" 1 blob_data 3 none).bind fun c2 =>
  (build_section c2 "__cstring" "__TEXT" 2 cstrings 0 (some S_CSTRING_LITERALS)).bind fun c3 =>
  (build_section c3 "__bss" "__DATA" 3 zeroed_data 0 (some S_ZEROFILL)).bind fun c4 =>
  (buildCustomSections c4 4 custom_sections).map fun c5 =>
    let finalTab := imports.foldl (fun st p => st.insert p.1 .Undefined) c5.symtab
    (finalTab,
      { sections := c5.sections, offset := c5.offset, size := c5.addr,
        align_pad_map := c5.align_pad_map })

/-! ### Artifact partitioning (`Mach::new`, src/mach.rs lines 683–713) -/

/-- The five definition buckets plus the accumulated bss byte count. -/
structure Partition where
  code : List Definition
  data : List Definition
  bss : List Definition
  cstrings : List Definition
  sections : List Definition
  bss_size : Nat
deriving DecidableEq, Repr

/-- The classification loop of `Mach::new`: `Function` definitions go to
code, zero-init `Data` to bss (adding to `bss_size`), `String`-typed
`Data` to cstrings, other `Data` to data, and `Section` definitions to the
custom-section bucket, preserving relative order. -/
def partition (defs : List Definition) : Partition :=
  defs.foldl
    (fun p d =>
      match d.decl with
      | .Function _ _ => { p with code := p.code ++ [d] }
      | .Data _ dt _ =>
        match d.data with
        | .ZeroInit size => { p with bss := p.bss ++ [d], bss_size := p.bss_size + size }
        | _ =>
          if dt = DataType.String then { p with cstrings := p.cstrings ++ [d] }
          else { p with data := p.data ++ [d] }
      | .Section _ _ _ => { p with sections := p.sections ++ [d] })
    { code := [], data := [], bss := [], cstrings := [], sections := [], bss_size := 0 }

/-! ### Relocation lowering (`build_relocations`, src/mach.rs lines 945–1040) -/

/-- The `Reloc::Auto` dispatch of `build_relocations` (src/mach.rs lines
959–1000): classify by the `(from.decl, to.decl)` pair; every arm that
panics (debug-section misuse, custom-section endpoints, an import as
relocation source) is `none`. -/
def autoLower : Decl → Decl → Option (Bool × Nat)
  | .Defined (.Section _ _ _), _ => none
  | _, .Defined (.Section _ _ _) => none
  | .Defined (.Data _ _ _), _ => some (true, X86_64_RELOC_UNSIGNED)
  | .Defined (.Function _ _), .Defined (.Function _ _) => some (false, X86_64_RELOC_BRANCH)
  | .Defined (.Function _ _), .Import .Function => some (false, X86_64_RELOC_BRANCH)
  | .Defined (.Function _ _), .Defined (.Data _ _ _) => some (false, X86_64_RELOC_SIGNED)
  | .Defined (.Function _ _), .Import .Data => some (false, X86_64_RELOC_GOT_LOAD)
  | .Import _, _ => none

/-- The `Reloc::Raw` dispatch of `build_relocations` (src/mach.rs lines
1002–1009): the `debug_assert!(reloc <= u8::MAX)` and `assert!(addend == 0)`
are modelled as fatal (`none`); otherwise the code is truncated to `u8` and
`R_ABS` maps to an absolute relocation. -/
def lowerRaw (reloc : Nat) (addend : Int) : Option (Bool × Nat) :=
  if 255 < reloc then none
  else if addend ≠ 0 then none
  else if reloc % 256 = R_ABS then some (true, R_ABS)
  else some (false, reloc % 256)

/-- Append a relocation to a section's relocation list. -/
def pushReloc (ri : RelocationInfo) (sb : SectionBuilder) : SectionBuilder :=
  { sb with relocations := sb.relocations ++ [ri] }

/-- Apply a section update to the entry at position `i` of the section map
(the value part only, as `get_index_mut(i).unwrap().1` does). -/
def modifySec (l : List (String × SectionBuilder)) (i : Nat)
    (f : SectionBuilder → SectionBuilder) : List (String × SectionBuilder) :=
  modifyIdx l i (fun p => (p.1, f p.2))

/-- The generic placement step of `build_relocations` (src/mach.rs lines
1025–1038): resolve the `from` offset and `to` ordinal; when both exist,
push the relocation onto the `__data` section (index `data_idx`) iff it is
absolute and onto `__text` (index `text_idx`) otherwise; when either lookup
fails, log and continue with the sections unchanged.  An out-of-bounds
section index models the `get_index_mut(..).unwrap()` panic. -/
def placeRelocation (text_idx data_idx : Nat) (symtab : SymbolTable)
    (sections : List (String × SectionBuilder)) (link : LinkEntry)
    (absolute : Bool) (reloc : Nat) : Option (List (String × SectionBuilder)) :=
  match symtab.offset link.from'.name, symtab.index link.to'.name with
  | some base_offset, some to_symbol_index =>
    let builder := RelocationBuilder.new to_symbol_index (base_offset + link.at') reloc
    if absolute then
      if data_idx < sections.length then
        (builder.abs.create).map fun ri => modifySec sections data_idx (pushReloc ri)
      else none
    else
      if text_idx < sections.length then
        (builder.create).map fun ri => modifySec sections text_idx (pushReloc ri)
      else none
  | _, _ => some sections

/-- Processing of a single link by `build_relocations` (src/mach.rs lines
953–1039): dispatch on the relocation request, then either the dedicated
`Debug` handling (push onto the `from` definition's own section, indexing
panic when that section does not exist, log-and-continue when the target
symbol is missing) or the generic placement step. -/
def processLink (text_idx data_idx : Nat) (symtab : SymbolTable)
    (sections : List (String × SectionBuilder)) (link : LinkEntry) :
    Option (List (String × SectionBuilder)) :=
  match link.reloc with
  | .Auto =>
    (autoLower link.from'.decl link.to'.decl).bind fun ar =>
      placeRelocation text_idx data_idx symtab sections link ar.1 ar.2
  | .Raw rl ad =>
    (lowerRaw rl ad).bind fun ar =>
      placeRelocation text_idx data_idx symtab sections link ar.1 ar.2
  | .Debug size =>
    if link.to'.decl.is_section then some sections
    else
      match symtab.index link.to'.name with
      | some to_symbol_index =>
        match alookup sections link.from'.name, keyIdx sections link.from'.name with
        | some _, some i =>
          ((((RelocationBuilder.new to_symbol_index link.at'
              X86_64_RELOC_UNSIGNED).abs).withSize size).create).map fun ri =>
            modifySec sections i (pushReloc ri)
        | _, _ => none
      | none => some sections

/-- `build_relocations` (src/mach.rs lines 945–1040): resolve the `__text`
and `__data` section indices (the two `unwrap`s), then process each link in
order. -/
def build_relocations (segment : SegmentBuilder) (links : List LinkEntry)
    (symtab : SymbolTable) : Option SegmentBuilder :=
  match keyIdx segment.sections "__text", keyIdx segment.sections "__data" with
  | some text_idx, some data_idx =>
    (links.foldlM (processLink text_idx data_idx symtab) segment.sections).map
      fun sections => { segment with sections }
  | _, _ => none

/-- `Mach::new` (src/mach.rs lines 683–740) without the target context:
partition the definitions, build the segment and symbol table, then lower
the links into relocations. -/
def machNew (header_size : Nat) (defs : List Definition)
    (imports : List (String × ImportKind)) (links : List LinkEntry) :
    Option (SymbolTable × SegmentBuilder) :=
  let p := partition defs
  (SegmentBuilder.mk' header_size p.code p.data p.bss p.cstrings p.sections imports
      SymbolTable.new).bind fun ts =>
    (build_relocations ts.2 links ts.1).map fun seg => (ts.1, seg)

/-! ### String-table emission size (`Mach::write`, src/mach.rs lines 914–924) -/

/-- The number of bytes the string-table emission loop writes: one NUL byte
for the empty first entry, then, for every later interned name, one
underscore byte, the name's UTF-8 bytes, and one trailing NUL. -/
def strtableWriteLen (t : SymbolTable) : Nat :=
  1 + ((t.strtable.drop 1).map (fun s => 1 + s.utf8ByteSize + 1)).sum

/-! ## Lemma layer -/

/-! ### Container lemmas -/

theorem nlookup_indexMapInsert_self {α : Type} (m : List (Nat × α)) (k : Nat) (v : α) :
    nlookup (indexMapInsert m k v) k = some v := by
  induction m with
  | nil => simp [indexMapInsert, nlookup]
  | cons p rest ih =>
    rcases p with ⟨pk, pv⟩
    by_cases hp : pk = k
    · subst hp
      simp [indexMapInsert, nlookup]
    · simp [indexMapInsert, nlookup, hp, ih]

theorem nlookup_indexMapInsert_ne {α : Type} (m : List (Nat × α)) (k k' : Nat) (v : α)
    (hne : k' ≠ k) :
    nlookup (indexMapInsert m k v) k' = nlookup m k' := by
  induction m with
  | nil => simp [indexMapInsert, nlookup, Ne.symm hne]
  | cons p rest ih =>
    rcases p with ⟨pk, pv⟩
    by_cases hp : pk = k
    · subst hp
      simp [indexMapInsert, nlookup, Ne.symm hne]
    · simp [indexMapInsert, nlookup, hp, ih]

theorem alookup_cons_self {α : Type} (m : List (String × α)) (k : String) (v : α) :
    alookup ((k, v) :: m) k = some v := by
  simp [alookup]

theorem alookup_cons_ne {α : Type} (m : List (String × α)) (k k' : String) (v : α)
    (hne : k' ≠ k) :
    alookup ((k, v) :: m) k' = alookup m k' := by
  simp [alookup, Ne.symm hne]

theorem alookup_sectionsInsert_self (m : List (String × SectionBuilder)) (k : String)
    (v : SectionBuilder) :
    alookup (sectionsInsert m k v) k = some v := by
  induction m with
  | nil => simp [sectionsInsert, alookup]
  | cons p rest ih =>
    rcases p with ⟨pk, pv⟩
    by_cases hp : pk = k
    · subst hp
      simp [sectionsInsert, alookup]
    · simp [sectionsInsert, alookup, hp, ih]

theorem alookup_sectionsInsert_ne (m : List (String × SectionBuilder)) (k k' : String)
    (v : SectionBuilder) (hne : k' ≠ k) :
    alookup (sectionsInsert m k v) k' = alookup m k' := by
  induction m with
  | nil => simp [sectionsInsert, alookup, Ne.symm hne]
  | cons p rest ih =>
    rcases p with ⟨pk, pv⟩
    by_cases hp : pk = k
    · subst hp
      simp [sectionsInsert, alookup, Ne.symm hne]
    · simp [sectionsInsert, alookup, hp, ih]

/-! ### Interner lemmas -/

theorem strGet_lt (l : List String) (n : String) :
    ∀ i, strGet l n = some i → i < l.length := by
  induction l with
  | nil => intro i h; simp [strGet] at h
  | cons s rest ih =>
    intro i h
    by_cases hs : s = n
    · simp [strGet, hs] at h
      simp [← h]
    · simp only [strGet, hs, if_false, Option.map_eq_some'] at h
      rcases h with ⟨j, hj, rfl⟩
      have := ih j hj
      simp; omega

theorem strGet_append_some (l : List String) (n m : String) (i : Nat)
    (h : strGet l n = some i) : strGet (l ++ [m]) n = some i := by
  induction l generalizing i with
  | nil => simp [strGet] at h
  | cons s rest ih =>
    by_cases hs : s = n
    · simp [strGet, hs] at h ⊢; exact h
    · simp only [strGet, hs, if_false, Option.map_eq_some'] at h
      rcases h with ⟨j, hj, rfl⟩
      simp only [List.cons_append, strGet, hs, if_false, List.append_eq]
      rw [ih j hj]
      rfl

theorem strGet_append_none_self (l : List String) (n : String)
    (h : strGet l n = none) : strGet (l ++ [n]) n = some l.length := by
  induction l with
  | nil => simp [strGet]
  | cons s rest ih =>
    by_cases hs : s = n
    · simp [strGet, hs] at h
    · simp only [strGet, hs, if_false, Option.map_eq_none'] at h
      simp only [List.cons_append, strGet, hs, if_false, List.append_eq]
      rw [ih h]
      rfl

theorem strGet_append_none_ne (l : List String) (n m : String)
    (h : strGet l n = none) (hne : n ≠ m) : strGet (l ++ [m]) n = none := by
  induction l with
  | nil => simp [strGet, Ne.symm hne]
  | cons s rest ih =>
    by_cases hs : s = n
    · simp [strGet, hs] at h
    · simp only [strGet, hs, if_false, Option.map_eq_none'] at h
      simp only [List.cons_append, strGet, hs, if_false, List.append_eq]
      rw [ih h]
      rfl

theorem strGet_none_iff (l : List String) (n : String) :
    strGet l n = none ↔ n ∉ l := by
  induction l with
  | nil => simp [strGet]
  | cons s rest ih =>
    by_cases hs : s = n
    · simp [strGet, hs]
    · simp [strGet, hs, Option.map_eq_none', ih, Ne.symm hs]

theorem strGet_isSome_iff (l : List String) (n : String) :
    (strGet l n).isSome ↔ n ∈ l := by
  rw [Option.isSome_iff_ne_none, ne_eq, strGet_none_iff]
  exact not_not

/-! ### SymbolTable.insert lemmas -/

/-- An insert whose name is already interned leaves the table unchanged. -/
theorem SymbolTable.insert_interned (t : SymbolTable) (name : String) (kind : SymbolType)
    (h : (strGet t.strtable name).isSome) : t.insert name kind = t := by
  rcases hs : strGet t.strtable name with _ | i
  · rw [hs] at h; simp at h
  · unfold SymbolTable.insert
    rw [hs]

/-- The builder stored for a freshly inserted defined symbol records the
given segment-relative offset. -/
theorem SymbolTable.offset_insert_self (t : SymbolTable) (name : String)
    (sec abs rel : Nat) (g : Bool) (h : strGet t.strtable name = none) :
    (t.insert name (.Defined sec abs rel g)).offset name = some rel := by
  unfold SymbolTable.insert
  rw [h]
  unfold SymbolTable.offset
  rw [strGet_append_none_self _ _ h]
  simp only [Option.some_bind]
  rw [nlookup_indexMapInsert_self]
  rfl

/-- Inserting one name never changes the recorded offset of another. -/
theorem SymbolTable.offset_insert_ne (t : SymbolTable) (name : String) (kind : SymbolType)
    (n : String) (hne : n ≠ name) :
    (t.insert name kind).offset n = t.offset n := by
  rcases hs : strGet t.strtable name with _ | i
  · unfold SymbolTable.insert
    rw [hs]
    unfold SymbolTable.offset
    rcases hn : strGet t.strtable n with _ | j
    · rw [strGet_append_none_ne _ _ _ hn hne]
      rfl
    · rw [strGet_append_some _ _ _ _ hn]
      simp only [Option.some_bind]
      rw [nlookup_indexMapInsert_ne]
      exact Nat.ne_of_lt (strGet_lt _ _ _ hn)
  · rw [SymbolTable.insert_interned t name kind (by rw [hs]; rfl)]

/-- A name that is fresh stays fresh across the insert of a different
name. -/
theorem SymbolTable.strGet_insert_none (t : SymbolTable) (name : String)
    (kind : SymbolType) (n : String) (h : strGet t.strtable n = none) (hne : n ≠ name) :
    strGet (t.insert name kind).strtable n = none := by
  rcases hs : strGet t.strtable name with _ | i
  · unfold SymbolTable.insert
    rw [hs]
    exact strGet_append_none_ne _ _ _ h hne
  · rw [SymbolTable.insert_interned t name kind (by rw [hs]; rfl)]
    exact h

/-- A name that is interned stays interned, at the same index, across any
insert. -/
theorem SymbolTable.strGet_insert_some (t : SymbolTable) (name : String)
    (kind : SymbolType) (n : String) (i : Nat) (h : strGet t.strtable n = some i) :
    strGet (t.insert name kind).strtable n = some i := by
  rcases hs : strGet t.strtable name with _ | j
  · unfold SymbolTable.insert
    rw [hs]
    exact strGet_append_some _ _ _ _ h
  · rw [SymbolTable.insert_interned t name kind (by rw [hs]; rfl)]
    exact h

/-! ### build_section loop lemmas -/

theorem buildSectionLoop_nil (sec minA : Nat) (st : LoopState) :
    buildSectionLoop sec minA [] st = some st := rfl

theorem buildSectionLoop_cons (sec minA : Nat) (d : Definition) (rest : List Definition)
    (st : LoopState) (h : d.decl.isSectionDecl = false) :
    buildSectionLoop sec minA (d :: rest) st =
      (peekExp rest).bind fun pe =>
        buildSectionLoop sec minA rest (loopStep sec minA d pe st) := by
  simp [buildSectionLoop, h]

theorem loopStep_symtab (sec minA : Nat) (d : Definition) (pe : Nat) (st : LoopState) :
    (loopStep sec minA d pe st).symtab =
      st.symtab.insert d.name
        (.Defined sec st.symbol_offset st.section_relative_offset d.decl.is_global) := rfl

theorem loopStep_pad_map (sec minA : Nat) (d : Definition) (pe : Nat) (st : LoopState) :
    (loopStep sec minA d pe st).align_pad_map =
      (d.name, padFor minA pe (st.section_relative_offset + d.data.file_size)) ::
        st.align_pad_map := rfl

theorem loopStep_sro (sec minA : Nat) (d : Definition) (pe : Nat) (st : LoopState) :
    (loopStep sec minA d pe st).section_relative_offset =
      st.section_relative_offset + d.data.file_size +
        padFor minA pe (st.section_relative_offset + d.data.file_size) := rfl

theorem loopStep_ls (sec minA : Nat) (d : Definition) (pe : Nat) (st : LoopState) :
    (loopStep sec minA d pe st).local_size =
      st.local_size + d.data.file_size +
        padFor minA pe (st.section_relative_offset + d.data.file_size) := rfl

/-- If a definition's section-loop run succeeds, no definition in the list
was a custom section and each peeked alignment converted; the run on a
cons therefore decomposes into one `loopStep` followed by the run on the
tail. -/
theorem buildSectionLoop_cons_inv (sec minA : Nat) (d : Definition)
    (rest : List Definition) (st out : LoopState)
    (h : buildSectionLoop sec minA (d :: rest) st = some out) :
    d.decl.isSectionDecl = false ∧
      ∃ pe, peekExp rest = some pe ∧
        buildSectionLoop sec minA rest (loopStep sec minA d pe st) = some out := by
  by_cases hd : d.decl.isSectionDecl
  · simp [buildSectionLoop, hd] at h
  · refine ⟨by simpa using hd, ?_⟩
    rw [buildSectionLoop_cons sec minA d rest st (by simpa using hd)] at h
    rcases hpe : peekExp rest with _ | pe
    · rw [hpe] at h; simp at h
    · rw [hpe] at h
      simp only [Option.some_bind] at h
      exact ⟨pe, rfl, h⟩

/-- Names interned before the loop keep their interned index and recorded
offset across the whole loop. -/
theorem loop_preserve (sec minA : Nat) (defs : List Definition) :
    ∀ (st out : LoopState), buildSectionLoop sec minA defs st = some out →
    ∀ n, (strGet st.symtab.strtable n).isSome →
      strGet out.symtab.strtable n = strGet st.symtab.strtable n ∧
      out.symtab.offset n = st.symtab.offset n := by
  induction defs with
  | nil =>
    intro st out h n hn
    rw [buildSectionLoop_nil] at h
    cases h
    exact ⟨rfl, rfl⟩
  | cons d rest ih =>
    intro st out h n hn
    obtain ⟨hd, pe, hpe, h⟩ := buildSectionLoop_cons_inv sec minA d rest st out h
    obtain ⟨j, hj⟩ := Option.isSome_iff_exists.mp hn
    have hj' : strGet (loopStep sec minA d pe st).symtab.strtable n = some j := by
      rw [loopStep_symtab]
      exact SymbolTable.strGet_insert_some _ _ _ _ _ hj
    have hoff : (loopStep sec minA d pe st).symtab.offset n = st.symtab.offset n := by
      rw [loopStep_symtab]
      by_cases hnn : n = d.name
      · rw [SymbolTable.insert_interned st.symtab d.name _ (by rw [← hnn, hj]; rfl)]
      · exact SymbolTable.offset_insert_ne _ _ _ _ hnn
    have := ih (loopStep sec minA d pe st) out h n (by rw [hj']; rfl)
    refine ⟨?_, ?_⟩
    · rw [this.1, hj', hj]
    · rw [this.2, hoff]

/-- The padding recorded for names outside the definition list is
untouched by the loop. -/
theorem loop_pad_preserve (sec minA : Nat) (defs : List Definition) :
    ∀ (st out : LoopState), buildSectionLoop sec minA defs st = some out →
    ∀ n, n ∉ defs.map (·.name) →
      alookup out.align_pad_map n = alookup st.align_pad_map n := by
  induction defs with
  | nil =>
    intro st out h n _
    rw [buildSectionLoop_nil] at h
    cases h
    rfl
  | cons d rest ih =>
    intro st out h n hn
    obtain ⟨hd, pe, hpe, h⟩ := buildSectionLoop_cons_inv sec minA d rest st out h
    simp only [List.map_cons, List.mem_cons, not_or] at hn
    rw [ih (loopStep sec minA d pe st) out h n hn.2, loopStep_pad_map]
    exact alookup_cons_ne _ _ _ _ hn.1

/-- `section_relative_offset` and `local_size` advance in lockstep through
the loop. -/
theorem loop_lockstep (sec minA : Nat) (defs : List Definition) :
    ∀ (st out : LoopState), buildSectionLoop sec minA defs st = some out →
      out.section_relative_offset + st.local_size =
        out.local_size + st.section_relative_offset := by
  induction defs with
  | nil =>
    intro st out h
    rw [buildSectionLoop_nil] at h
    cases h
    omega
  | cons d rest ih =>
    intro st out h
    obtain ⟨hd, pe, hpe, h⟩ := buildSectionLoop_cons_inv sec minA d rest st out h
    have := ih (loopStep sec minA d pe st) out h
    rw [loopStep_sro, loopStep_ls] at this
    omega

/-- The first definition of a loop run is recorded at the incoming
section-relative offset. -/
theorem loop_head (sec minA : Nat) (d : Definition) (rest : List Definition)
    (st out : LoopState)
    (h : buildSectionLoop sec minA (d :: rest) st = some out)
    (hfresh : strGet st.symtab.strtable d.name = none) :
    out.symtab.offset d.name = some st.section_relative_offset := by
  obtain ⟨hd, pe, hpe, h⟩ := buildSectionLoop_cons_inv sec minA d rest st out h
  have hself : (loopStep sec minA d pe st).symtab.offset d.name =
      some st.section_relative_offset := by
    rw [loopStep_symtab]
    exact SymbolTable.offset_insert_self _ _ _ _ _ _ hfresh
  have hsome : (strGet (loopStep sec minA d pe st).symtab.strtable d.name).isSome := by
    rw [loopStep_symtab]
    unfold SymbolTable.insert
    rw [hfresh]
    rw [strGet_append_none_self _ _ hfresh]
    rfl
  have := loop_preserve sec minA rest (loopStep sec minA d pe st) out h d.name hsome
  rw [this.2, hself]

/-- Chain property of the loop: each definition's recorded offset plus its
file size plus its recorded padding equals the next definition's recorded
offset. -/
theorem loop_chain (sec minA : Nat) (defs : List Definition) (dflt : Definition) :
    ∀ (st out : LoopState), buildSectionLoop sec minA defs st = some out →
    (∀ d ∈ defs, strGet st.symtab.strtable d.name = none) →
    (defs.map (·.name)).Nodup →
    ∀ i, i + 1 < defs.length →
      ∃ o p, out.symtab.offset (defs.getD i dflt).name = some o ∧
        alookup out.align_pad_map (defs.getD i dflt).name = some p ∧
        out.symtab.offset (defs.getD (i + 1) dflt).name =
          some (o + (defs.getD i dflt).data.file_size + p) := by
  induction defs with
  | nil =>
    intro st out _ _ _ i hi
    simp at hi
  | cons d rest ih =>
    intro st out h hfresh hnodup i hi
    obtain ⟨hd, pe, hpe, h⟩ := buildSectionLoop_cons_inv sec minA d rest st out h
    simp only [List.map_cons, List.nodup_cons] at hnodup
    have hfresh_rest : ∀ e ∈ rest, strGet (loopStep sec minA d pe st).symtab.strtable
        e.name = none := by
      intro e he
      rw [loopStep_symtab]
      refine SymbolTable.strGet_insert_none _ _ _ _ (hfresh e (List.mem_cons_of_mem d he)) ?_
      intro hcontra
      exact hnodup.1 (by rw [← hcontra]; exact List.mem_map_of_mem (·.name) he)
    cases i with
    | zero =>
      rcases rest with _ | ⟨e, rest'⟩
      · simp at hi
      · refine ⟨st.section_relative_offset,
          padFor minA pe (st.section_relative_offset + d.data.file_size), ?_, ?_, ?_⟩
        · have := loop_head sec minA d (e :: rest') st out
            (by
              rw [buildSectionLoop_cons sec minA d (e :: rest') st hd, hpe]
              simpa using h)
            (hfresh d (List.mem_cons_self d _))
          simpa using this
        · have hnotin : d.name ∉ (e :: rest').map (·.name) := by
            simpa using hnodup.1
          have := loop_pad_preserve sec minA (e :: rest') (loopStep sec minA d pe st) out
            h d.name hnotin
          rw [loopStep_pad_map] at this
          simp only [List.getD_cons_zero]
          rw [this]
          exact alookup_cons_self st.align_pad_map d.name _
        · have := loop_head sec minA e rest' (loopStep sec minA d pe st) out h
            (hfresh_rest e (List.mem_cons_self e _))
          rw [loopStep_sro] at this
          simpa using this
    | succ i' =>
      have := ih (loopStep sec minA d pe st) out h hfresh_rest hnodup.2 i' (by
        simpa using Nat.lt_of_succ_lt_succ hi)
      simpa using this

/-- Last-definition property of the loop: when offsets and local size start
in lockstep, the last definition's recorded offset plus its file size plus
its recorded padding equals the final local size. -/
theorem loop_last (sec minA : Nat) (defs : List Definition) :
    ∀ (hne : defs ≠ []) (st out : LoopState),
    buildSectionLoop sec minA defs st = some out →
    (∀ d ∈ defs, strGet st.symtab.strtable d.name = none) →
    (defs.map (·.name)).Nodup →
    st.section_relative_offset = st.local_size →
    ∃ o p, out.symtab.offset (defs.getLast hne).name = some o ∧
      alookup out.align_pad_map (defs.getLast hne).name = some p ∧
      o + (defs.getLast hne).data.file_size + p = out.local_size := by
  induction defs with
  | nil => intro hne; exact absurd rfl hne
  | cons d rest ih =>
    intro hne st out h hfresh hnodup hsl
    obtain ⟨hd, pe, hpe, h⟩ := buildSectionLoop_cons_inv sec minA d rest st out h
    simp only [List.map_cons, List.nodup_cons] at hnodup
    cases rest with
    | nil =>
      rw [buildSectionLoop_nil] at h
      cases h
      refine ⟨st.section_relative_offset,
        padFor minA pe (st.section_relative_offset + d.data.file_size), ?_, ?_, ?_⟩
      · rw [List.getLast_singleton, loopStep_symtab]
        exact SymbolTable.offset_insert_self _ _ _ _ _ _ (hfresh d (List.mem_cons_self d _))
      · rw [List.getLast_singleton, loopStep_pad_map]
        exact alookup_cons_self st.align_pad_map d.name _
      · rw [List.getLast_singleton, loopStep_ls]
        omega
    | cons e rest' =>
      have hfresh_rest : ∀ x ∈ e :: rest', strGet (loopStep sec minA d pe st).symtab.strtable
          x.name = none := by
        intro x hx
        rw [loopStep_symtab]
        refine SymbolTable.strGet_insert_none _ _ _ _
          (hfresh x (List.mem_cons_of_mem d hx)) ?_
        intro hcontra
        exact hnodup.1 (by rw [← hcontra]; exact List.mem_map_of_mem (·.name) hx)
      have hsl' : (loopStep sec minA d pe st).section_relative_offset =
          (loopStep sec minA d pe st).local_size := by
        rw [loopStep_sro, loopStep_ls]
        omega
      have := ih (by simp) (loopStep sec minA d pe st) out h hfresh_rest hnodup.2 hsl'
      rw [List.getLast_cons (by simp)]
      exact this

/-! ## Claim theorems -/

/-- **C1** — For every definition `d` placed in a default section by
`build_section` (names fresh in the incoming symbol table and pairwise
distinct, and the run succeeding), the sum
`symtab.offset(d.name) + d.file_size + align_pad_map[d.name]` equals the
segment-relative offset `symtab.offset` of the next definition in that
section, or equals the section's reported size when `d` is the last
definition of the section. -/
theorem c1_default_section_offset_chain
    (ctx : BuildCtx) (sectname segname : String) (sec : Nat) (defs : List Definition)
    (minA : Nat) (flags : Option Nat) (dflt : Definition) (out : BuildCtx)
    (hrun : build_section ctx sectname segname sec defs minA flags = some out)
    (hfresh : ∀ d ∈ defs, strGet ctx.symtab.strtable d.name = none)
    (hnodup : (defs.map (·.name)).Nodup) :
    (∀ i, i + 1 < defs.length →
      ∃ o p, out.symtab.offset (defs.getD i dflt).name = some o ∧
        alookup out.align_pad_map (defs.getD i dflt).name = some p ∧
        out.symtab.offset (defs.getD (i + 1) dflt).name =
          some (o + (defs.getD i dflt).data.file_size + p)) ∧
    ∀ hne : defs ≠ [], ∃ sb o p,
      alookup out.sections sectname = some sb ∧
      out.symtab.offset (defs.getLast hne).name = some o ∧
      alookup out.align_pad_map (defs.getLast hne).name = some p ∧
      o + (defs.getLast hne).data.file_size + p = sb.size := by
  unfold build_section at hrun
  rcases hloop : buildSectionLoop sec minA defs
      { symtab := ctx.symtab, symbol_offset := ctx.symbol_offset,
        section_relative_offset := 0, local_size := 0,
        alignment_exponent := minA, align_pad_map := ctx.align_pad_map }
    with _ | st
  · rw [hloop] at hrun
    simp at hrun
  · rw [hloop] at hrun
    simp only [Option.map_some', Option.some.injEq] at hrun
    subst hrun
    constructor
    · exact loop_chain sec minA defs dflt _ st hloop hfresh hnodup
    · intro hne
      obtain ⟨o, p, ho, hp, hsum⟩ :=
        loop_last sec minA defs hne _ st hloop hfresh hnodup rfl
      refine ⟨_, o, p, alookup_sectionsInsert_self _ _ _, ho, hp, ?_⟩
      rcases flags with _ | f
      · exact hsum
      · exact hsum

/-- Concrete input for the C1 witness: a fresh build context starting after
a 32-byte header. -/
def c1ctx : BuildCtx :=
  { symtab := SymbolTable.new, offset := 32, addr := 0, symbol_offset := 0,
    sections := [], align_pad_map := [] }

/-- Concrete 4-byte function `f` with alignment 1. -/
def c1defA : Definition :=
  { name := "f", decl := .Function false (some 1), data := .Blob [1, 2, 3, 4], symbols := [] }

/-- Concrete 4-byte function `g` with alignment 4. -/
def c1defB : Definition :=
  { name := "g", decl := .Function false (some 4), data := .Blob [5, 6, 7, 8], symbols := [] }

/-- The build context produced by running `build_section` on the C1
witness input. -/
def c1out : BuildCtx :=
  { symtab :=
      { symbols :=
          [(1, { name := 1, sect := some 0, global := false, isImport := false,
                 offset := 0, segment_relative_offset := 0 }),
           (2, { name := 4, sect := some 0, global := false, isImport := false,
                 offset := 16, segment_relative_offset := 16 })],
        strtable := ["", "f", "g"],
        indexes := [(1, 0), (2, 1)],
        strtable_size := 7 },
    offset := 64,
    addr := 32,
    symbol_offset := 32,
    sections :=
      [("__text",
        { addr := 0, align := 4, offset := 32, size := 32, flags := 2147484672,
          sectname := "__text", segname := "__TEXT", relocations := [] })],
    align_pad_map := [("g", 12), ("f", 12)] }

/-- Witness for C1 at a concrete two-definition `__text` section. -/
theorem c1_default_section_offset_chain_witness :
    (build_section c1ctx "__text" "__TEXT" 0 [c1defA, c1defB] 4
        (some (S_ATTR_PURE_INSTRUCTIONS ||| S_ATTR_SOME_INSTRUCTIONS)) = some c1out ∧
      (∀ d ∈ [c1defA, c1defB], strGet c1ctx.symtab.strtable d.name = none) ∧
      (([c1defA, c1defB].map (·.name)).Nodup)) ∧
    ((∀ i, i + 1 < [c1defA, c1defB].length →
      ∃ o p, c1out.symtab.offset ([c1defA, c1defB].getD i c1defA).name = some o ∧
        alookup c1out.align_pad_map ([c1defA, c1defB].getD i c1defA).name = some p ∧
        c1out.symtab.offset ([c1defA, c1defB].getD (i + 1) c1defA).name =
          some (o + ([c1defA, c1defB].getD i c1defA).data.file_size + p)) ∧
    ∀ hne : [c1defA, c1defB] ≠ [], ∃ sb o p,
      alookup c1out.sections "__text" = some sb ∧
      c1out.symtab.offset ([c1defA, c1defB].getLast hne).name = some o ∧
      alookup c1out.align_pad_map ([c1defA, c1defB].getLast hne).name = some p ∧
      o + ([c1defA, c1defB].getLast hne).data.file_size + p = sb.size) :=
  ⟨⟨by decide, by decide, by decide⟩,
    c1_default_section_offset_chain c1ctx "__text" "__TEXT" 0 [c1defA, c1defB] 4
      (some (S_ATTR_PURE_INSTRUCTIONS ||| S_ATTR_SOME_INSTRUCTIONS)) c1defA c1out
      (by decide) (by decide) (by decide)⟩

/-- The single definition of spec scenario S2: a global function `main`
with the 1-byte blob `[0xC3]`. -/
def s2main : Definition :=
  { name := "main", decl := .Function true none, data := .Blob [0xC3], symbols := [] }

/-- The `__text` size reported by the layout pipeline for an artifact. -/
def textSectionSize (defs : List Definition) (imports : List (String × ImportKind))
    (links : List LinkEntry) : Option Nat :=
  (machNew 32 defs imports links).bind fun p => (alookup p.2.sections "__text").map (·.size)

/-- The `__text` alignment exponent reported by the layout pipeline for an
artifact. -/
def textSectionAlign (defs : List Definition) (imports : List (String × ImportKind))
    (links : List LinkEntry) : Option Nat :=
  (machNew 32 defs imports links).bind fun p => (alookup p.2.sections "__text").map (·.align)

/-- **C2 counterexample** — For the artifact whose only definition is the
global function `main` with a 1-byte blob and no imports or links, the
emitted `__text` section has size 16, not 1: the claim "size 1 and
alignment exponent 4" is false on the code. -/
theorem c2_counterexample :
    textSectionSize [s2main] [] [] = some 16 ∧
    ¬(textSectionSize [s2main] [] [] = some 1 ∧
      textSectionAlign [s2main] [] [] = some 4) := by
  decide

/-- **C2 (amended)** — For an artifact whose only definition is a global
Function named `main` with a 1-byte blob payload and no imports or links,
the emitted `__text` section has size 16 and alignment exponent 4: after
the last definition the loop still pads to
`max(min_align_exp, 0) = 4`, appending 15 bytes of padding
(`align_pad_map[main] = 15`) after the 1 payload byte. -/
theorem c2_text_size_amended :
    textSectionSize [s2main] [] [] = some 16 ∧
    textSectionAlign [s2main] [] [] = some 4 ∧
    ((machNew 32 [s2main] [] []).bind fun p => alookup p.2.align_pad_map "main") =
      some 15 := by
  decide

/-- The S3 link `from=f, to=g, at=1, reloc=Auto`. -/
def s3link : LinkEntry :=
  { from' := { name := "f", decl := .Defined (.Function false (some 1)) },
    to' := { name := "g", decl := .Defined (.Function false (some 4)) },
    at' := 1, reloc := .Auto }

/-- **C3 counterexample** — For the artifact with functions `f` (4 bytes,
align 1) and `g` (4 bytes, align 4) and the S3 link, the recorded padding
after `f` is 12 (not 0) and `g`'s segment-relative offset is 16 (not 4):
the claim is false on the code. -/
theorem c3_counterexample :
    ¬(((machNew 32 [c1defA, c1defB] [] [s3link]).bind fun p =>
        alookup p.2.align_pad_map "f") = some 0 ∧
      ((machNew 32 [c1defA, c1defB] [] [s3link]).bind fun p => p.1.offset "g") =
        some 4) := by
  decide

/-- **C3 (amended)** — For an artifact with exactly two Function
definitions in order `f` (4-byte blob, alignment 1) and `g` (4-byte blob,
alignment 4), 12 padding bytes are recorded between `f` and `g`
(`align_pad_map[f] = 12`), because the next-definition alignment exponent
is `max(4, 2) = 4` — `__text`'s minimum alignment exponent dominates `g`'s
requested exponent — and `g`'s segment-relative offset `symtab.offset("g")`
equals 16. -/
theorem c3_padding_offset_amended :
    ((machNew 32 [c1defA, c1defB] [] [s3link]).bind fun p =>
      alookup p.2.align_pad_map "f") = some 12 ∧
    ((machNew 32 [c1defA, c1defB] [] [s3link]).bind fun p => p.1.offset "g") =
      some 16 := by
  decide

/-- **C8** — `SymbolTable::insert` is idempotent on the name: for every
symbol table state and every name already interned, a second insert with
any kind leaves the table unchanged — in particular the name's symbol
ordinal, segment-relative offset, and section never change after first
insertion, and `len()` and `sizeof_strtable()` are unchanged. -/
theorem c8_insert_idempotent (t : SymbolTable) (name : String) (kind : SymbolType)
    (h : (strGet t.strtable name).isSome) :
    t.insert name kind = t ∧
    (t.insert name kind).index name = t.index name ∧
    (t.insert name kind).offset name = t.offset name ∧
    (t.insert name kind).len = t.len ∧
    (t.insert name kind).sizeof_strtable = t.sizeof_strtable := by
  have heq := SymbolTable.insert_interned t name kind h
  exact ⟨heq, by rw [heq], by rw [heq], by rw [heq], by rw [heq]⟩

/-- Witness for C8: inserting `a` a second time (with a different kind)
leaves the one-symbol table unchanged. -/
theorem c8_insert_idempotent_witness :
    (strGet (SymbolTable.new.insert "a" .Undefined).strtable "a").isSome ∧
    ((SymbolTable.new.insert "a" .Undefined).insert "a" (.Defined 0 1 2 true) =
        SymbolTable.new.insert "a" .Undefined ∧
      ((SymbolTable.new.insert "a" .Undefined).insert "a" (.Defined 0 1 2 true)).index "a" =
        (SymbolTable.new.insert "a" .Undefined).index "a" ∧
      ((SymbolTable.new.insert "a" .Undefined).insert "a" (.Defined 0 1 2 true)).offset "a" =
        (SymbolTable.new.insert "a" .Undefined).offset "a" ∧
      ((SymbolTable.new.insert "a" .Undefined).insert "a" (.Defined 0 1 2 true)).len =
        (SymbolTable.new.insert "a" .Undefined).len ∧
      ((SymbolTable.new.insert "a" .Undefined).insert "a" (.Defined 0 1 2 true)).sizeof_strtable =
        (SymbolTable.new.insert "a" .Undefined).sizeof_strtable) :=
  ⟨by decide,
    c8_insert_idempotent (SymbolTable.new.insert "a" .Undefined) "a"
      (.Defined 0 1 2 true) (by decide)⟩

/-- `SymbolBuilder::create` on an import record: `N_EXT` alone, `NO_SECT`,
zero value. -/
theorem SymbolBuilder.create_import (s : SymbolBuilder) (h : s.isImport = true) :
    s.create = { n_strx := s.name, n_type := N_EXT, n_sect := NO_SECT, n_desc := 0,
                 n_value := 0 } := by
  unfold SymbolBuilder.create
  simp [h]

/-- `SymbolBuilder::create` on a non-import record with a section set. -/
theorem SymbolBuilder.create_defined (s : SymbolBuilder) (i : Nat)
    (h : s.isImport = false) (hs : s.sect = some i) :
    s.create = { n_strx := s.name,
                 n_type := ((if s.global then N_UNDF ||| N_EXT
                             else N_UNDF &&& (255 - N_EXT)) ||| N_SECT) ||| N_SECT,
                 n_sect := i + 1, n_desc := 0, n_value := s.offset } := by
  unfold SymbolBuilder.create
  simp [h, hs]

/-- **C7** — For every symbol record, the emitted `Nlist` satisfies: if the
record is an import then `n_type = N_EXT` alone, `n_sect = NO_SECT`, and
`n_value = 0`; if the record is defined in section index `i` (with
`i < nsects`) then `n_sect = i + 1`, a 1-based ordinal in `[1, nsects]`,
`n_type` has `N_SECT` set (plus `N_EXT` iff global), and `n_value` is the
stored absolute offset. -/
theorem c7_nlist_fields (s : SymbolBuilder) (nsects : Nat) :
    (s.isImport = true →
      s.create.n_type = N_EXT ∧ s.create.n_sect = NO_SECT ∧ s.create.n_value = 0) ∧
    (s.isImport = false → ∀ i, s.sect = some i → i < nsects →
      s.create.n_sect = i + 1 ∧ 1 ≤ s.create.n_sect ∧ s.create.n_sect ≤ nsects ∧
      s.create.n_type &&& N_SECT = N_SECT ∧
      (s.create.n_type &&& N_EXT = N_EXT ↔ s.global = true) ∧
      s.create.n_value = s.offset) := by
  constructor
  · intro himp
    rw [SymbolBuilder.create_import s himp]
    exact ⟨rfl, rfl, rfl⟩
  · intro himp i hsec hlt
    rw [SymbolBuilder.create_defined s i himp hsec]
    rcases hg : s.global
    · exact ⟨rfl, Nat.le_add_left 1 i, hlt,
        (by decide : (14 : Nat) &&& N_SECT = N_SECT),
        (by decide : ((14 : Nat) &&& N_EXT = N_EXT) ↔ false = true), rfl⟩
    · exact ⟨rfl, Nat.le_add_left 1 i, hlt,
        (by decide : (15 : Nat) &&& N_SECT = N_SECT),
        (by decide : ((15 : Nat) &&& N_EXT = N_EXT) ↔ true = true), rfl⟩

/-- Witness for C7 at a concrete import record and a concrete global
defined record in section index 0 (of 1 section). -/
theorem c7_nlist_fields_witness :
    (((SymbolBuilder.new 1).setGlobal true).setImport.isImport = true ∧
      (((SymbolBuilder.new 1).setGlobal true).setImport.create.n_type = N_EXT ∧
        ((SymbolBuilder.new 1).setGlobal true).setImport.create.n_sect = NO_SECT ∧
        ((SymbolBuilder.new 1).setGlobal true).setImport.create.n_value = 0)) ∧
    ((((SymbolBuilder.new 1).setGlobal true).setOffset 5).setSection 0).isImport = false ∧
    ((((SymbolBuilder.new 1).setGlobal true).setOffset 5).setSection 0).sect = some 0 ∧
    (0 : Nat) < 1 ∧
    ((((SymbolBuilder.new 1).setGlobal true).setOffset 5).setSection 0).create.n_sect =
      0 + 1 :=
  ⟨⟨rfl, (c7_nlist_fields (((SymbolBuilder.new 1).setGlobal true).setImport) 1).1 rfl⟩,
    rfl, rfl, by decide,
    ((c7_nlist_fields ((((SymbolBuilder.new 1).setGlobal true).setOffset 5).setSection 0)
      1).2 rfl 0 rfl (by decide)).1⟩

/-- **C9** — For every link with a `Raw` spec, a relocation code greater
than 255 or a nonzero addend is a fatal error (the assertions at
src/mach.rs lines 1003–1004); otherwise the spec lowers to
`(absolute = true, R_ABS)` when `reloc = R_ABS` and to
`(absolute = false, reloc as u8)` for any other code, and processing
continues with the generic placement step. -/
theorem c9_raw_link (text_idx data_idx : Nat) (symtab : SymbolTable)
    (sections : List (String × SectionBuilder)) (lf lt : LinkSide) (la : Nat)
    (rl : Nat) (ad : Int) :
    (255 < rl ∨ ad ≠ 0 →
      processLink text_idx data_idx symtab sections
        { from' := lf, to' := lt, at' := la, reloc := .Raw rl ad } = none) ∧
    (rl ≤ 255 → ad = 0 →
      lowerRaw rl ad = some (if rl = R_ABS then (true, R_ABS) else (false, rl)) ∧
      processLink text_idx data_idx symtab sections
          { from' := lf, to' := lt, at' := la, reloc := .Raw rl ad } =
        placeRelocation text_idx data_idx symtab sections
          { from' := lf, to' := lt, at' := la, reloc := .Raw rl ad }
          (if rl = R_ABS then true else false) (if rl = R_ABS then R_ABS else rl)) := by
  constructor
  · intro h
    simp only [processLink, lowerRaw]
    rcases Nat.lt_or_ge 255 rl with hgt | hle2
    · rw [if_pos hgt]
      rfl
    · rw [if_neg (by omega)]
      have had : ad ≠ 0 := by
        rcases h with h | h
        · omega
        · exact h
      rw [if_pos had]
      rfl
  · intro hle h0
    subst h0
    have hmod : rl % 256 = rl := Nat.mod_eq_of_lt (by omega)
    have hlower : lowerRaw rl 0 =
        some (if rl = R_ABS then (true, R_ABS) else (false, rl)) := by
      unfold lowerRaw
      rw [if_neg (by omega), if_neg (by simp), hmod]
      by_cases hz : rl = R_ABS
      · rw [if_pos hz, if_pos hz]
      · rw [if_neg hz, if_neg hz]
    refine ⟨hlower, ?_⟩
    simp only [processLink, hlower, Option.some_bind]
    by_cases hz : rl = R_ABS
    · rw [if_pos hz, if_pos hz, if_pos hz]
    · rw [if_neg hz, if_neg hz, if_neg hz]

/-- Witness for C9: raw code 300 (with zero addend) is fatal; raw code 5
with zero addend lowers to a non-absolute relocation with code 5. -/
theorem c9_raw_link_witness :
    ((255 < (300 : Nat) ∨ (0 : Int) ≠ 0) ∧
      processLink 0 1 SymbolTable.new []
        { from' := { name := "f", decl := .Defined (.Function false none) },
          to' := { name := "g", decl := .Defined (.Function false none) },
          at' := 0, reloc := .Raw 300 0 } = none) ∧
    ((300 : Nat) ≤ 255 → (0 : Int) = 0 → False) ∧
    ((5 : Nat) ≤ 255 ∧ (0 : Int) = 0 ∧
      lowerRaw 5 0 = some (if (5 : Nat) = R_ABS then (true, R_ABS) else (false, 5))) :=
  ⟨⟨Or.inl (by decide),
    (c9_raw_link 0 1 SymbolTable.new []
      { name := "f", decl := .Defined (.Function false none) }
      { name := "g", decl := .Defined (.Function false none) } 0 300 0).1
      (Or.inl (by decide))⟩,
    by decide,
    ⟨by decide, rfl,
      ((c9_raw_link 0 1 SymbolTable.new []
        { name := "f", decl := .Defined (.Function false none) }
        { name := "g", decl := .Defined (.Function false none) } 0 5 0).2
        (by decide) rfl).1⟩⟩

/-- **C10** — For every link with a `Debug` spec whose target is not a
section and whose target symbol ordinal resolves, if `from.name` is not a
key of the segment's section map then `build_relocations` panics on the
indexing `segment.sections[link.from.name]` (modelled as `none`) instead of
logging and continuing; the logged-and-continue path (result unchanged) is
reached only when the target symbol ordinal is missing. -/
theorem c10_debug_link_indexing_panic (text_idx data_idx : Nat) (symtab : SymbolTable)
    (sections : List (String × SectionBuilder)) (lf lt : LinkSide) (la sz : Nat)
    (hsec : lt.decl.is_section = false) :
    (∀ ix, symtab.index lt.name = some ix →
      alookup sections lf.name = none →
      processLink text_idx data_idx symtab sections
        { from' := lf, to' := lt, at' := la, reloc := .Debug sz } = none) ∧
    (symtab.index lt.name = none →
      processLink text_idx data_idx symtab sections
        { from' := lf, to' := lt, at' := la, reloc := .Debug sz } = some sections) := by
  constructor
  · intro ix hix hlook
    simp only [processLink, hsec, Bool.false_eq_true, if_false, hix, hlook]
  · intro hix
    simp only [processLink, hsec, Bool.false_eq_true, if_false, hix]

/-- Witness for C10: a `Debug` link into an empty section map panics when
the target ordinal resolves, and is logged-and-skipped when the target is
missing from the symbol table. -/
theorem c10_debug_link_indexing_panic_witness :
    (({ name := "x", decl := .Defined (.Function false none) } : LinkSide).decl.is_section =
        false ∧
      (SymbolTable.new.insert "x" (.Defined 0 0 0 true)).index "x" = some 0 ∧
      alookup ([] : List (String × SectionBuilder)) ".debug_info" = none ∧
      processLink 0 1 (SymbolTable.new.insert "x" (.Defined 0 0 0 true)) []
        { from' := { name := ".debug_info", decl := .Defined (.Section .Debug .Bytes none) },
          to' := { name := "x", decl := .Defined (.Function false none) },
          at' := 0, reloc := .Debug 8 } = none) ∧
    (SymbolTable.new.index "x" = none ∧
      processLink 0 1 SymbolTable.new []
        { from' := { name := ".debug_info", decl := .Defined (.Section .Debug .Bytes none) },
          to' := { name := "x", decl := .Defined (.Function false none) },
          at' := 0, reloc := .Debug 8 } = some []) :=
  ⟨⟨by decide, by decide, by decide,
    (c10_debug_link_indexing_panic 0 1 (SymbolTable.new.insert "x" (.Defined 0 0 0 true)) []
      { name := ".debug_info", decl := .Defined (.Section .Debug .Bytes none) }
      { name := "x", decl := .Defined (.Function false none) } 0 8 (by decide)).1 0
      (by decide) (by decide)⟩,
    ⟨by decide,
      (c10_debug_link_indexing_panic 0 1 SymbolTable.new []
        { name := ".debug_info", decl := .Defined (.Section .Debug .Bytes none) }
        { name := "x", decl := .Defined (.Function false none) } 0 8 (by decide)).2
        (by decide)⟩⟩

/-- `toI32` is the identity on values that fit in a signed 32-bit
integer. -/
theorem toI32_of_lt (n : Nat) (h : n < 2 ^ 31) : toI32 n = (n : Int) := by
  unfold toI32
  rw [Nat.mod_eq_of_lt (by omega)]
  rw [if_pos (by omega)]

/-- Behaviour of the generic placement step: when both lookups resolve, a
relocation at `offset(from) + at` is pushed onto the section at
`data_idx` iff the relocation is absolute and onto the section at
`text_idx` otherwise; when either lookup fails the sections are returned
unchanged. -/
theorem placeRelocation_spec (text_idx data_idx : Nat) (symtab : SymbolTable)
    (sections : List (String × SectionBuilder)) (link : LinkEntry) (a : Bool) (r : Nat) :
    (∀ o ix, symtab.offset link.from'.name = some o →
      symtab.index link.to'.name = some ix →
      (if a then data_idx else text_idx) < sections.length →
      ∃ ri, placeRelocation text_idx data_idx symtab sections link a r =
          some (modifySec sections (if a then data_idx else text_idx) (pushReloc ri)) ∧
        ri.r_address = toI32 (o + link.at') ∧
        (o + link.at' < 2 ^ 31 → ri.r_address = ((o + link.at' : Nat) : Int))) ∧
    ((symtab.offset link.from'.name = none ∨ symtab.index link.to'.name = none) →
      placeRelocation text_idx data_idx symtab sections link a r = some sections) := by
  constructor
  · intro o ix ho hix hlen
    unfold placeRelocation
    rw [ho, hix]
    rcases a with _ | _
    · simp only [Bool.false_eq_true, if_false] at hlen ⊢
      rw [if_pos hlen]
      obtain ⟨info, hc⟩ : ∃ info, (RelocationBuilder.new ix (o + link.at') r).create =
          some { r_address := toI32 (o + link.at'), r_info := info } :=
        ⟨_, rfl⟩
      rw [hc]
      exact ⟨_, rfl, rfl, fun hb => by rw [toI32_of_lt _ hb]⟩
    · simp only [if_true] at hlen ⊢
      rw [if_pos hlen]
      obtain ⟨info, hc⟩ : ∃ info, (RelocationBuilder.new ix (o + link.at') r).abs.create =
          some { r_address := toI32 (o + link.at'), r_info := info } :=
        ⟨_, rfl⟩
      rw [hc]
      exact ⟨_, rfl, rfl, fun hb => by rw [toI32_of_lt _ hb]⟩
  · intro h
    unfold placeRelocation
    rcases h with h | h
    · rw [h]
    · rw [h]
      rcases ho : symtab.offset link.from'.name with _ | o <;> rfl

/-- **C6** — For every `Auto` or `Raw` link whose dispatch succeeds with
`(absolute, reloc)`, if both `symtab.offset(from.name)` and
`symtab.index(to.name)` resolve, a relocation with
`r_address = offset(from) + at` is appended to `__data`'s relocation list
(the section at `data_idx`) iff `absolute` is true and to `__text`'s list
(at `text_idx`) otherwise; if either lookup fails, the link is dropped
with a logged diagnostic, no relocation is emitted for it, and emission
continues without error. -/
theorem c6_auto_raw_placement (text_idx data_idx : Nat) (symtab : SymbolTable)
    (sections : List (String × SectionBuilder)) (link : LinkEntry) (a : Bool) (r : Nat)
    (hdisp : (link.reloc = .Auto ∧
        autoLower link.from'.decl link.to'.decl = some (a, r)) ∨
      ∃ rl ad, link.reloc = .Raw rl ad ∧ lowerRaw rl ad = some (a, r)) :
    (∀ o ix, symtab.offset link.from'.name = some o →
      symtab.index link.to'.name = some ix →
      (if a then data_idx else text_idx) < sections.length →
      ∃ ri, processLink text_idx data_idx symtab sections link =
          some (modifySec sections (if a then data_idx else text_idx) (pushReloc ri)) ∧
        ri.r_address = toI32 (o + link.at') ∧
        (o + link.at' < 2 ^ 31 → ri.r_address = ((o + link.at' : Nat) : Int))) ∧
    ((symtab.offset link.from'.name = none ∨ symtab.index link.to'.name = none) →
      processLink text_idx data_idx symtab sections link = some sections) := by
  have hred : processLink text_idx data_idx symtab sections link =
      placeRelocation text_idx data_idx symtab sections link a r := by
    rcases hdisp with ⟨hrel, hauto⟩ | ⟨rl, ad, hrel, hraw⟩
    · rcases link with ⟨lf, lt, la, rel⟩
      simp only at hrel
      subst hrel
      simp only [processLink, hauto, Option.some_bind]
    · rcases link with ⟨lf, lt, la, rel⟩
      simp only at hrel
      subst hrel
      simp only [processLink, hraw, Option.some_bind]
  rw [hred]
  exact placeRelocation_spec text_idx data_idx symtab sections link a r

/-- Concrete symbol table for the C6 witness: `f` defined at
segment-relative offset 0, `g` defined at offset 4. -/
def c6tab : SymbolTable :=
  (SymbolTable.new.insert "f" (.Defined 0 0 0 false)).insert "g" (.Defined 0 4 4 false)

/-- Concrete section map for the C6 witness: empty `__text` and `__data`
sections. -/
def c6sections : List (String × SectionBuilder) :=
  [("__text", SectionBuilder.new "__text" "__TEXT" 0),
   ("__data", SectionBuilder.new "__data" "__DATA" 0)]

/-- The C6 witness link: `Auto` from function `f` to function `g` at
offset 1. -/
def c6link : LinkEntry :=
  { from' := { name := "f", decl := .Defined (.Function false (some 1)) },
    to' := { name := "g", decl := .Defined (.Function false (some 4)) },
    at' := 1, reloc := .Auto }

/-- Witness for C6: the `Auto` dispatch succeeds with
`(false, X86_64_RELOC_BRANCH)`, both lookups resolve, and the placement
conclusion holds at a concrete two-section segment. -/
theorem c6_auto_raw_placement_witness :
    ((c6link.reloc = .Auto ∧
        autoLower c6link.from'.decl c6link.to'.decl = some (false, X86_64_RELOC_BRANCH)) ∧
      c6tab.offset "f" = some 0 ∧ c6tab.index "g" = some 1 ∧
      (if false then 1 else 0) < c6sections.length) ∧
    (∃ ri, processLink 0 1 c6tab c6sections c6link =
        some (modifySec c6sections (if false then 1 else 0) (pushReloc ri)) ∧
      ri.r_address = toI32 (0 + c6link.at') ∧
      (0 + c6link.at' < 2 ^ 31 → ri.r_address = ((0 + c6link.at' : Nat) : Int))) :=
  ⟨⟨⟨rfl, by decide⟩, by decide, by decide, by decide⟩,
    (c6_auto_raw_placement 0 1 c6tab c6sections c6link false X86_64_RELOC_BRANCH
      (Or.inl ⟨rfl, by decide⟩)).1 0 1 (by decide) (by decide) (by decide)⟩

/-- Disjoint OR: when `a` fits below bit `k`, OR-ing it with a multiple of
`2 ^ k` is addition. -/
theorem lor_two_pow_add (k a b : Nat) (ha : a < 2 ^ k) :
    a ||| 2 ^ k * b = 2 ^ k * b + a := by
  rw [Nat.lor_comm]
  exact (Nat.mul_add_lt_is_or ha b).symm

/-- Decomposition of the packed relocation word into a sum of its disjoint
fields. -/
theorem rinfo_decomp (s p l t : Nat) (hs : s < 2 ^ 24) (hp : p < 2) (hl : l < 4)
    (ht : t < 16) :
    s ||| p <<< 24 ||| l <<< 25 ||| 1 <<< 27 ||| t <<< 28 =
      t * 2 ^ 28 + 2 ^ 27 + l * 2 ^ 25 + p * 2 ^ 24 + s := by
  rw [Nat.shiftLeft_eq p 24, Nat.shiftLeft_eq l 25, Nat.shiftLeft_eq 1 27,
    Nat.shiftLeft_eq t 28]
  rw [show p * 2 ^ 24 = 2 ^ 24 * p from Nat.mul_comm _ _]
  rw [lor_two_pow_add 24 s p hs]
  rw [show l * 2 ^ 25 = 2 ^ 25 * l from Nat.mul_comm _ _]
  rw [lor_two_pow_add 25 (2 ^ 24 * p + s) l (by omega)]
  rw [show (1 : Nat) * 2 ^ 27 = 2 ^ 27 * 1 from Nat.mul_comm _ _]
  rw [lor_two_pow_add 27 (2 ^ 25 * l + (2 ^ 24 * p + s)) 1 (by omega)]
  rw [show t * 2 ^ 28 = 2 ^ 28 * t from Nat.mul_comm _ _]
  rw [lor_two_pow_add 28 (2 ^ 27 * 1 + (2 ^ 25 * l + (2 ^ 24 * p + s))) t (by omega)]
  ring

/-- Bit-field extraction from the packed word produced by
`RelocationBuilder::create`. -/
theorem packedBits (s t P L : Nat) (hs : s < 2 ^ 24) (ht : t < 16) (hP : P < 2)
    (hL : L < 4) :
    ((s % 2 ^ 32) ||| P <<< 24 ||| L <<< 25 ||| 1 <<< 27 ||| (t <<< 28) % 2 ^ 32) % 2 ^ 24 =
        s ∧
      ((s % 2 ^ 32) ||| P <<< 24 ||| L <<< 25 ||| 1 <<< 27 ||| (t <<< 28) % 2 ^ 32) /
          2 ^ 24 % 2 = P ∧
      ((s % 2 ^ 32) ||| P <<< 24 ||| L <<< 25 ||| 1 <<< 27 ||| (t <<< 28) % 2 ^ 32) /
          2 ^ 25 % 4 = L ∧
      ((s % 2 ^ 32) ||| P <<< 24 ||| L <<< 25 ||| 1 <<< 27 ||| (t <<< 28) % 2 ^ 32) /
          2 ^ 27 % 2 = 1 ∧
      ((s % 2 ^ 32) ||| P <<< 24 ||| L <<< 25 ||| 1 <<< 27 ||| (t <<< 28) % 2 ^ 32) /
          2 ^ 28 = t := by
  have h1 : s % 2 ^ 32 = s := Nat.mod_eq_of_lt (by omega)
  have h2 : (t <<< 28) % 2 ^ 32 = t <<< 28 := by
    rw [Nat.shiftLeft_eq]
    exact Nat.mod_eq_of_lt (by omega)
  have hw : ((s % 2 ^ 32) ||| P <<< 24 ||| L <<< 25 ||| 1 <<< 27 ||| (t <<< 28) % 2 ^ 32) =
      t * 2 ^ 28 + 2 ^ 27 + L * 2 ^ 25 + P * 2 ^ 24 + s := by
    rw [h1, h2]
    exact rinfo_decomp s P L t hs hP hL ht
  rw [hw]
  refine ⟨by omega, by omega, by omega, by omega, by omega⟩

/-- **C5** — For every relocation finalized by `RelocationBuilder::create`
(with the symbol ordinal below 2^24 and the relocation type below 16, the
widths of their fields), the packed `r_info` word satisfies: bits 0–23 are
the symbol ordinal, bit 24 is set iff not absolute, bits 25–26 are the
length code (3 if `size = 0` and absolute, 2 if `size = 0` and not
absolute, 2 if `size = 4`, 3 if `size = 8`), bit 27 is always set
(external), and bits 28–31 are the relocation type; any other size is
fatal. -/
theorem c5_relocation_r_info (b : RelocationBuilder) (hsym : b.symbol < 2 ^ 24)
    (ht : b.r_type < 16) :
    ((b.size = 0 ∨ b.size = 4 ∨ b.size = 8) →
      ∃ ri, b.create = some ri ∧
        ri.r_info % 2 ^ 24 = b.symbol ∧
        ri.r_info / 2 ^ 24 % 2 = (if b.absolute then 0 else 1) ∧
        ri.r_info / 2 ^ 25 % 4 =
          (if b.size = 0 then (if b.absolute then 3 else 2)
           else if b.size = 4 then 2 else 3) ∧
        ri.r_info / 2 ^ 27 % 2 = 1 ∧
        ri.r_info / 2 ^ 28 = b.r_type) ∧
    (¬(b.size = 0 ∨ b.size = 4 ∨ b.size = 8) → b.create = none) := by
  constructor
  · intro hsize
    rcases habs : b.absolute with _ | _ <;> rcases hsize with h0 | h4 | h8
    · have hc : b.create = some
          { r_address := toI32 b.relocation_offset,
            r_info := (b.symbol % 2 ^ 32) ||| 1 <<< 24 ||| 2 <<< 25 ||| 1 <<< 27 |||
              (b.r_type <<< 28) % 2 ^ 32 } := by
        unfold RelocationBuilder.create
        rw [h0, habs]
        simp
      refine ⟨_, hc, ?_, ?_, ?_, ?_, ?_⟩
      · exact (packedBits b.symbol b.r_type 1 2 hsym ht (by omega) (by omega)).1
      · exact (packedBits b.symbol b.r_type 1 2 hsym ht (by omega) (by omega)).2.1
      · rw [h0]
        exact (packedBits b.symbol b.r_type 1 2 hsym ht (by omega) (by omega)).2.2.1
      · exact (packedBits b.symbol b.r_type 1 2 hsym ht (by omega) (by omega)).2.2.2.1
      · exact (packedBits b.symbol b.r_type 1 2 hsym ht (by omega) (by omega)).2.2.2.2
    · have hc : b.create = some
          { r_address := toI32 b.relocation_offset,
            r_info := (b.symbol % 2 ^ 32) ||| 1 <<< 24 ||| 2 <<< 25 ||| 1 <<< 27 |||
              (b.r_type <<< 28) % 2 ^ 32 } := by
        unfold RelocationBuilder.create
        rw [h4, habs]
        simp
      refine ⟨_, hc, ?_, ?_, ?_, ?_, ?_⟩
      · exact (packedBits b.symbol b.r_type 1 2 hsym ht (by omega) (by omega)).1
      · exact (packedBits b.symbol b.r_type 1 2 hsym ht (by omega) (by omega)).2.1
      · rw [h4]
        exact (packedBits b.symbol b.r_type 1 2 hsym ht (by omega) (by omega)).2.2.1
      · exact (packedBits b.symbol b.r_type 1 2 hsym ht (by omega) (by omega)).2.2.2.1
      · exact (packedBits b.symbol b.r_type 1 2 hsym ht (by omega) (by omega)).2.2.2.2
    · have hc : b.create = some
          { r_address := toI32 b.relocation_offset,
            r_info := (b.symbol % 2 ^ 32) ||| 1 <<< 24 ||| 3 <<< 25 ||| 1 <<< 27 |||
              (b.r_type <<< 28) % 2 ^ 32 } := by
        unfold RelocationBuilder.create
        rw [h8, habs]
        simp
      refine ⟨_, hc, ?_, ?_, ?_, ?_, ?_⟩
      · exact (packedBits b.symbol b.r_type 1 3 hsym ht (by omega) (by omega)).1
      · exact (packedBits b.symbol b.r_type 1 3 hsym ht (by omega) (by omega)).2.1
      · rw [h8]
        exact (packedBits b.symbol b.r_type 1 3 hsym ht (by omega) (by omega)).2.2.1
      · exact (packedBits b.symbol b.r_type 1 3 hsym ht (by omega) (by omega)).2.2.2.1
      · exact (packedBits b.symbol b.r_type 1 3 hsym ht (by omega) (by omega)).2.2.2.2
    · have hc : b.create = some
          { r_address := toI32 b.relocation_offset,
            r_info := (b.symbol % 2 ^ 32) ||| 0 <<< 24 ||| 3 <<< 25 ||| 1 <<< 27 |||
              (b.r_type <<< 28) % 2 ^ 32 } := by
        unfold RelocationBuilder.create
        rw [h0, habs]
        simp
      refine ⟨_, hc, ?_, ?_, ?_, ?_, ?_⟩
      · exact (packedBits b.symbol b.r_type 0 3 hsym ht (by omega) (by omega)).1
      · exact (packedBits b.symbol b.r_type 0 3 hsym ht (by omega) (by omega)).2.1
      · rw [h0]
        exact (packedBits b.symbol b.r_type 0 3 hsym ht (by omega) (by omega)).2.2.1
      · exact (packedBits b.symbol b.r_type 0 3 hsym ht (by omega) (by omega)).2.2.2.1
      · exact (packedBits b.symbol b.r_type 0 3 hsym ht (by omega) (by omega)).2.2.2.2
    · have hc : b.create = some
          { r_address := toI32 b.relocation_offset,
            r_info := (b.symbol % 2 ^ 32) ||| 0 <<< 24 ||| 2 <<< 25 ||| 1 <<< 27 |||
              (b.r_type <<< 28) % 2 ^ 32 } := by
        unfold RelocationBuilder.create
        rw [h4, habs]
        simp
      refine ⟨_, hc, ?_, ?_, ?_, ?_, ?_⟩
      · exact (packedBits b.symbol b.r_type 0 2 hsym ht (by omega) (by omega)).1
      · exact (packedBits b.symbol b.r_type 0 2 hsym ht (by omega) (by omega)).2.1
      · rw [h4]
        exact (packedBits b.symbol b.r_type 0 2 hsym ht (by omega) (by omega)).2.2.1
      · exact (packedBits b.symbol b.r_type 0 2 hsym ht (by omega) (by omega)).2.2.2.1
      · exact (packedBits b.symbol b.r_type 0 2 hsym ht (by omega) (by omega)).2.2.2.2
    · have hc : b.create = some
          { r_address := toI32 b.relocation_offset,
            r_info := (b.symbol % 2 ^ 32) ||| 0 <<< 24 ||| 3 <<< 25 ||| 1 <<< 27 |||
              (b.r_type <<< 28) % 2 ^ 32 } := by
        unfold RelocationBuilder.create
        rw [h8, habs]
        simp
      refine ⟨_, hc, ?_, ?_, ?_, ?_, ?_⟩
      · exact (packedBits b.symbol b.r_type 0 3 hsym ht (by omega) (by omega)).1
      · exact (packedBits b.symbol b.r_type 0 3 hsym ht (by omega) (by omega)).2.1
      · rw [h8]
        exact (packedBits b.symbol b.r_type 0 3 hsym ht (by omega) (by omega)).2.2.1
      · exact (packedBits b.symbol b.r_type 0 3 hsym ht (by omega) (by omega)).2.2.2.1
      · exact (packedBits b.symbol b.r_type 0 3 hsym ht (by omega) (by omega)).2.2.2.2
  · intro h
    push_neg at h
    simp [RelocationBuilder.create, h.1, h.2.1, h.2.2]

/-- Witness for C5: a non-absolute 4-byte relocation for symbol ordinal 5
with type `X86_64_RELOC_BRANCH`. -/
theorem c5_relocation_r_info_witness :
    (((RelocationBuilder.new 5 10 X86_64_RELOC_BRANCH).withSize 4).symbol < 2 ^ 24 ∧
      ((RelocationBuilder.new 5 10 X86_64_RELOC_BRANCH).withSize 4).r_type < 16 ∧
      (((RelocationBuilder.new 5 10 X86_64_RELOC_BRANCH).withSize 4).size = 0 ∨
        ((RelocationBuilder.new 5 10 X86_64_RELOC_BRANCH).withSize 4).size = 4 ∨
        ((RelocationBuilder.new 5 10 X86_64_RELOC_BRANCH).withSize 4).size = 8)) ∧
    (∃ ri, ((RelocationBuilder.new 5 10 X86_64_RELOC_BRANCH).withSize 4).create = some ri ∧
      ri.r_info % 2 ^ 24 = ((RelocationBuilder.new 5 10 X86_64_RELOC_BRANCH).withSize 4).symbol ∧
      ri.r_info / 2 ^ 24 % 2 =
        (if ((RelocationBuilder.new 5 10 X86_64_RELOC_BRANCH).withSize 4).absolute then 0
         else 1) ∧
      ri.r_info / 2 ^ 25 % 4 =
        (if ((RelocationBuilder.new 5 10 X86_64_RELOC_BRANCH).withSize 4).size = 0 then
          (if ((RelocationBuilder.new 5 10 X86_64_RELOC_BRANCH).withSize 4).absolute then 3
           else 2)
         else if ((RelocationBuilder.new 5 10 X86_64_RELOC_BRANCH).withSize 4).size = 4 then 2
         else 3) ∧
      ri.r_info / 2 ^ 27 % 2 = 1 ∧
      ri.r_info / 2 ^ 28 = ((RelocationBuilder.new 5 10 X86_64_RELOC_BRANCH).withSize 4).r_type) :=
  ⟨⟨by decide, by decide, Or.inr (Or.inl rfl)⟩,
    (c5_relocation_r_info ((RelocationBuilder.new 5 10 X86_64_RELOC_BRANCH).withSize 4)
      (by decide) (by decide)).1 (Or.inr (Or.inl rfl))⟩

/-! ### String-table well-formedness -/

/-- Well-formedness of the interner and accumulated string-table size: the
first interned string is the empty string, interned strings are distinct,
and the accumulated size is one NUL byte plus, per later entry, underscore
plus name bytes plus NUL. -/
def StrWF (t : SymbolTable) : Prop :=
  t.strtable.head? = some "" ∧ t.strtable.Nodup ∧
  t.strtable_size = 1 + ((t.strtable.drop 1).map (fun s => 1 + s.utf8ByteSize + 1)).sum

theorem StrWF_new : StrWF SymbolTable.new := by
  refine ⟨rfl, by simp [SymbolTable.new], ?_⟩
  simp [SymbolTable.new]

theorem StrWF_decomp (t : SymbolTable) (h : StrWF t) :
    t.strtable = "" :: t.strtable.drop 1 ∧ "" ∉ t.strtable.drop 1 := by
  obtain ⟨h1, h2, _⟩ := h
  rcases hl : t.strtable with _ | ⟨a, tail⟩
  · rw [hl] at h1
    simp at h1
  · rw [hl] at h1
    have ha : a = "" := by simpa using h1
    subst ha
    rw [hl] at h2
    refine ⟨by simp, ?_⟩
    simp only [List.drop_succ_cons, List.drop_zero]
    exact (List.nodup_cons.mp h2).1

theorem StrWF_insert (t : SymbolTable) (h : StrWF t) (name : String) (kind : SymbolType) :
    StrWF (t.insert name kind) := by
  rcases hs : strGet t.strtable name with _ | i
  · have hmem : name ∉ t.strtable := (strGet_none_iff _ _).mp hs
    obtain ⟨hdec, _⟩ := StrWF_decomp t h
    unfold SymbolTable.insert
    rw [hs]
    refine ⟨?_, ?_, ?_⟩
    · rw [hdec]
      rfl
    · simp only [List.nodup_append, List.nodup_cons]
      exact ⟨h.2.1, by simp, by simpa [List.disjoint_singleton] using hmem⟩
    · show t.strtable_size + (name.utf8ByteSize + 1 + 1) =
        1 + (((t.strtable ++ [name]).drop 1).map (fun s => 1 + s.utf8ByteSize + 1)).sum
      conv_lhs => rw [h.2.2]
      rw [List.drop_append_of_le_length (by
        rcases hl : t.strtable with _ | ⟨a, tail⟩
        · rw [hl] at hdec
          exact absurd hdec (by simp)
        · exact Nat.succ_le_succ (Nat.zero_le _))]
      rw [List.map_append, List.sum_append]
      simp
      omega
  · rw [SymbolTable.insert_interned t name kind (by rw [hs]; rfl)]
    exact h

theorem strtable_mem_insert (t : SymbolTable) (name : String) (kind : SymbolType)
    (n : String) :
    n ∈ (t.insert name kind).strtable ↔ n ∈ t.strtable ∨ n = name := by
  rcases hs : strGet t.strtable name with _ | i
  · unfold SymbolTable.insert
    rw [hs]
    simp
  · rw [SymbolTable.insert_interned t name kind (by rw [hs]; rfl)]
    have : name ∈ t.strtable := (strGet_isSome_iff _ _).mp (by rw [hs]; rfl)
    constructor
    · exact Or.inl
    · rintro (hn | rfl)
      · exact hn
      · exact this

theorem c4_fold (ops : List (String × SymbolType)) :
    ∀ t, StrWF t →
      StrWF (ops.foldl (fun acc op => acc.insert op.1 op.2) t) ∧
      ∀ n, n ∈ (ops.foldl (fun acc op => acc.insert op.1 op.2) t).strtable ↔
        n ∈ t.strtable ∨ n ∈ ops.map Prod.fst := by
  induction ops with
  | nil =>
    intro t h
    exact ⟨h, by simp⟩
  | cons op rest ih =>
    intro t h
    simp only [List.foldl_cons]
    obtain ⟨hwf, hmem⟩ := ih (t.insert op.1 op.2) (StrWF_insert t h op.1 op.2)
    refine ⟨hwf, fun n => ?_⟩
    rw [hmem n, strtable_mem_insert]
    simp only [List.map_cons, List.mem_cons]
    tauto

/-- **C4** — For every sequence of insert operations on the symbol table
(with nonempty names), `sizeof_strtable()` equals the total number of
bytes the string-table emission step writes: 1 for the initial NUL byte
plus, for each distinct inserted name, `len(name) + 2` (one underscore
prefix byte, the name bytes, one trailing NUL).  The distinct inserted
names are exactly the interned names after the initial empty entry, which
are pairwise distinct. -/
theorem c4_strtable_size (ops : List (String × SymbolType)) (t : SymbolTable)
    (ht : t = ops.foldl (fun acc op => acc.insert op.1 op.2) SymbolTable.new)
    (hne : ∀ n ∈ ops.map Prod.fst, n ≠ "") :
    t.sizeof_strtable = strtableWriteLen t ∧
    (t.strtable.drop 1).Nodup ∧
    (∀ n, n ∈ t.strtable.drop 1 ↔ n ∈ ops.map Prod.fst) ∧
    strtableWriteLen t =
      1 + ((t.strtable.drop 1).map (fun s => 1 + s.utf8ByteSize + 1)).sum := by
  subst ht
  obtain ⟨hwf, hmem⟩ := c4_fold ops SymbolTable.new StrWF_new
  obtain ⟨hdec, hnotin⟩ := StrWF_decomp _ hwf
  refine ⟨hwf.2.2, ?_, ?_, rfl⟩
  · exact (List.drop_sublist 1 _).nodup hwf.2.1
  · intro n
    by_cases hn : n = ""
    · subst hn
      simp only [hnotin, false_iff]
      intro hcontra
      exact hne "" hcontra rfl
    · constructor
      · intro hdrop
        have : n ∈ (ops.foldl (fun acc op => acc.insert op.1 op.2)
            SymbolTable.new).strtable := by
          rw [hdec]
          exact List.mem_cons_of_mem _ hdrop
        rcases (hmem n).mp this with hnew | hops
        · exact absurd (by simpa [SymbolTable.new] using hnew) hn
        · exact hops
      · intro hops
        have : n ∈ (ops.foldl (fun acc op => acc.insert op.1 op.2)
            SymbolTable.new).strtable := (hmem n).mpr (Or.inr hops)
        rw [hdec] at this
        rcases List.mem_cons.mp this with h1 | h2
        · exact absurd h1 hn
        · exact h2

/-- Witness for C4: three inserts (one a duplicate) of the nonempty names
`a` and `bc`; the accumulated size is `1 + (1+2) + (2+2) = 8`. -/
theorem c4_strtable_size_witness :
    ((∀ n ∈ ([("a", SymbolType.Undefined), ("bc", SymbolType.Defined 0 0 0 true),
        ("a", SymbolType.Undefined)].map Prod.fst), n ≠ "") ∧
      ([("a", SymbolType.Undefined), ("bc", SymbolType.Defined 0 0 0 true),
        ("a", SymbolType.Undefined)].foldl (fun acc op => acc.insert op.1 op.2)
          SymbolTable.new).sizeof_strtable = 8) ∧
    (([("a", SymbolType.Undefined), ("bc", SymbolType.Defined 0 0 0 true),
        ("a", SymbolType.Undefined)].foldl (fun acc op => acc.insert op.1 op.2)
          SymbolTable.new).sizeof_strtable =
      strtableWriteLen ([("a", SymbolType.Undefined), ("bc", SymbolType.Defined 0 0 0 true),
        ("a", SymbolType.Undefined)].foldl (fun acc op => acc.insert op.1 op.2)
          SymbolTable.new)) :=
  ⟨⟨by decide, by decide⟩,
    (c4_strtable_size
      [("a", SymbolType.Undefined), ("bc", SymbolType.Defined 0 0 0 true),
        ("a", SymbolType.Undefined)]
      ([("a", SymbolType.Undefined), ("bc", SymbolType.Defined 0 0 0 true),
        ("a", SymbolType.Undefined)].foldl (fun acc op => acc.insert op.1 op.2)
          SymbolTable.new) rfl (by decide)).1⟩

end Faerie
